import Mathlib

/-!
Verification development for the Arvados job-execution pipeline
(crunch-dispatch-slurm queue monitor, crunch-run container runner and
output/log capture, and the container/container-request priority model).

Shallow embedding conventions:
  * Go maps are modelled as association lists with insert-overwrites-key
    semantics; map iteration order is irrelevant to every property proved here.
  * Go strings are Lean `String`s; `strings.HasPrefix s pre` is
    `pre.isPrefixOf s`.
  * Concurrency is modelled by explicit interleavings: a sequence of atomic
    operations applied to an explicit state value.
  * Fallible operations return `Option`/sum-like inductives.
-/

namespace Squeue

/-- `jobPriority` from services/crunch-dispatch-slurm/squeue.go. -/
structure jobPriority where
  niceness : Int
  currentPriority : Int
deriving DecidableEq, Repr

/-- The `uuids` map of `SqueueChecker`: a Go map from job name to
`jobPriority`, modelled as an association list with unique keys maintained
by `insertSnap`. -/
abbrev Snapshot := List (String × jobPriority)

/-- Go map lookup `sqc.uuids[uuid]`. -/
def lookupSnap (m : Snapshot) (k : String) : Option jobPriority :=
  (m.find? (fun kv => kv.1 == k)).map (·.2)

/-- Go map assignment `sqc.uuids[uuid] = jobPriority{nice, prio}`:
newest binding shadows (and erases) any previous binding of the key. -/
def insertSnap (m : Snapshot) (k : String) (v : jobPriority) : Snapshot :=
  (k, v) :: m.filter (fun kv => kv.1 ≠ k)

/-- One parsed output line of `squeue --all --format=%j %y %Q`:
job name, niceness, current priority (the result of `fmt.Sscan`). -/
abbrev PollLine := String × Int × Int

/-- The loop body of `SqueueChecker.check`: build a fresh `uuids` map from
the parsed lines, skipping lines whose scanned uuid is empty. -/
def buildSnapshot (lines : List PollLine) : Snapshot :=
  lines.foldl (fun m l => if l.1 ≠ "" then insertSnap m l.1 ⟨l.2.1, l.2.2⟩ else m) []

/-- The snapshot published after `k` successful polls have completed, given
the whole history `polls` of successful poll outputs.  `check` replaces
`sqc.uuids` wholesale on each successful poll, so the published snapshot
after `k ≥ 1` polls is built from the `k`-th poll alone; before the first
successful poll the map is the zero value (empty). -/
def snapshotAfter (polls : List (List PollLine)) (k : Nat) : Snapshot :=
  if k = 0 then []
  else
    match polls[k - 1]? with
    | some lines => buildSnapshot lines
    | none => []

/-- `SqueueChecker.HasUUID`, called after `k` successful polls have
completed: it calls `sqc.Wait()`, blocking until the broadcast of the next
(`k+1`-st) successful poll, and only then reads the map. -/
def hasUUID (polls : List (List PollLine)) (k : Nat) (uuid : String) : Bool :=
  (lookupSnap (snapshotAfter polls (k + 1)) uuid).isSome

/-- Niceness read from a snapshot, with the `-1` fallback of
`SqueueChecker.GetNiceness` for absent keys. -/
def nicenessOf (m : Snapshot) (uuid : String) : Int :=
  match lookupSnap m uuid with
  | some n => n.niceness
  | none => -1

/-- `SqueueChecker.GetNiceness`, called after `k` successful polls have
completed: it takes the lock but does NOT call `sqc.Wait()`, so it reads
the snapshot already published by the most recent poll (empty before any
poll has succeeded). -/
def getNiceness (polls : List (List PollLine)) (k : Nat) (uuid : String) : Int :=
  nicenessOf (snapshotAfter polls k) uuid

/-- The behaviour the spec ascribes to `Niceness`: block until the next
successful poll after the query was issued, then read the just-published
snapshot.  (Stated from the spec's words, for comparison with
`getNiceness`, which is translated from the code.) -/
def getNicenessSpecLike (polls : List (List PollLine)) (k : Nat) (uuid : String) : Int :=
  nicenessOf (snapshotAfter polls (k + 1)) uuid

/-- `SqueueChecker.All`, called after `k` successful polls have completed:
waits for the next poll's broadcast, then returns all job names of the
just-published snapshot. -/
def allUUIDs (polls : List (List PollLine)) (k : Nat) : List String :=
  (snapshotAfter polls (k + 1)).map (·.1)

end Squeue

namespace Squeue

theorem find?_filterNe (rest : Snapshot) (k k' : String) (h : k' ≠ k) :
    (rest.filter (fun kv => kv.1 ≠ k)).find? (fun kv => kv.1 == k') =
      rest.find? (fun kv => kv.1 == k') := by
  induction rest with
  | nil => rfl
  | cons kv rest ih =>
    by_cases hk : kv.1 = k
    · have h1 : decide (kv.1 ≠ k) = false := by simp [hk]
      have h2 : (kv.1 == k') = false := by
        refine beq_eq_false_iff_ne.mpr ?_
        rw [hk]
        exact fun he => h he.symm
      rw [List.filter_cons, h1, if_neg (by decide)]
      simp only [List.find?, h2]
      exact ih
    · have h1 : decide (kv.1 ≠ k) = true := by simpa using hk
      rw [List.filter_cons, h1, if_pos rfl]
      by_cases hm : kv.1 = k'
      · have h2 : (kv.1 == k') = true := by simpa using hm
        simp only [List.find?, h2]
      · have h2 : (kv.1 == k') = false := by simpa using hm
        simp only [List.find?, h2]
        exact ih

theorem lookupSnap_insert (m : Snapshot) (k k' : String) (v : jobPriority) :
    lookupSnap (insertSnap m k v) k' =
      if k' = k then some v else lookupSnap m k' := by
  unfold insertSnap lookupSnap
  by_cases h : k' = k
  · subst h
    simp [List.find?]
  · have hkk : ((k, v).1 == k') = false := by
      refine beq_eq_false_iff_ne.mpr fun he => h he.symm
    simp only [List.find?, hkk]
    rw [if_neg h, find?_filterNe _ _ _ h]

/-- Key presence in the map built by a fold of `check`'s loop body:
a uuid is present iff some parsed line carries it (and it is nonempty). -/
theorem lookupSnap_buildSnapshot_isSome (lines : List PollLine) (u : String) :
    (lookupSnap (buildSnapshot lines) u).isSome = true ↔
      (∃ l ∈ lines, l.1 = u ∧ u ≠ "") := by
  suffices h : ∀ (m : Snapshot),
      (lookupSnap (lines.foldl
          (fun m l => if l.1 ≠ "" then insertSnap m l.1 ⟨l.2.1, l.2.2⟩ else m) m) u).isSome = true ↔
        ((∃ l ∈ lines, l.1 = u ∧ u ≠ "") ∨ (lookupSnap m u).isSome = true) by
    have := h []
    simpa [buildSnapshot, lookupSnap] using this
  induction lines with
  | nil => simp
  | cons l rest ih =>
    intro m
    simp only [List.foldl_cons]
    by_cases hl : l.1 ≠ ""
    · rw [if_pos hl]
      rw [ih]
      rw [lookupSnap_insert]
      by_cases hu : u = l.1
      · subst hu
        simp [hl]
      · rw [if_neg hu]
        constructor
        · rintro (⟨x, hx, hxu, hne⟩ | hm)
          · exact Or.inl ⟨x, List.mem_cons_of_mem _ hx, hxu, hne⟩
          · exact Or.inr hm
        · rintro (⟨x, hx, hxu, hne⟩ | hm)
          · rcases List.mem_cons.mp hx with rfl | hx
            · exact absurd hxu.symm hu
            · exact Or.inl ⟨x, hx, hxu, hne⟩
          · exact Or.inr hm
    · rw [if_neg hl]
      rw [ih]
      push_neg at hl
      constructor
      · rintro (⟨x, hx, hxu, hne⟩ | hm)
        · exact Or.inl ⟨x, List.mem_cons_of_mem _ hx, hxu, hne⟩
        · exact Or.inr hm
      · rintro (⟨x, hx, hxu, hne⟩ | hm)
        · rcases List.mem_cons.mp hx with rfl | hx
          · exact absurd (hxu.symm.trans hl) hne
          · exact Or.inl ⟨x, hx, hxu, hne⟩
        · exact Or.inr hm

theorem snapshotAfter_succ (polls : List (List PollLine)) (k : Nat)
    (hk : k < polls.length) :
    snapshotAfter polls (k + 1) = buildSnapshot (polls.get ⟨k, hk⟩) := by
  unfold snapshotAfter
  rw [if_neg (Nat.succ_ne_zero k)]
  simp only [Nat.add_sub_cancel]
  rw [List.getElem?_eq_getElem hk]
  rfl

theorem mem_mapFst_iff_lookup (m : Snapshot) (u : String) :
    u ∈ m.map (·.1) ↔ (lookupSnap m u).isSome = true := by
  unfold lookupSnap
  constructor
  · intro hmem
    rcases List.mem_map.mp hmem with ⟨kv, hkv, rfl⟩
    have : ∃ x ∈ m, (fun p => p.1 == kv.1) x = true := ⟨kv, hkv, by simp⟩
    rcases (List.find?_isSome).mpr this |> Option.isSome_iff_exists.mp with ⟨x, hx⟩
    simp [hx]
  · intro hsome
    rcases Option.isSome_iff_exists.mp hsome with ⟨x, hx⟩
    rcases Option.map_eq_some'.mp hx with ⟨kv, hfind, _⟩
    have hmem := List.mem_of_find?_eq_some hfind
    have heq : kv.1 = u := by
      have := List.find?_some hfind
      simpa using this
    exact List.mem_map.mpr ⟨kv, hmem, heq⟩

/-- C10: for every job name not present in the current snapshot —
including before any successful poll has published one — `GetNiceness`
returns the sentinel `-1` rather than a distinct absent indicator. -/
theorem C10_niceness_sentinel :
    (∀ (m : Snapshot) (uuid : String),
        lookupSnap m uuid = none → nicenessOf m uuid = -1)
    ∧ (∀ (polls : List (List PollLine)) (uuid : String),
        getNiceness polls 0 uuid = -1) := by
  constructor
  · intro m uuid h
    unfold nicenessOf
    rw [h]
  · intro polls uuid
    unfold getNiceness snapshotAfter
    rw [if_pos rfl]
    rfl

/-- C10 witness: concrete instance of the absent-key sentinel. -/
theorem C10_niceness_sentinel_witness :
    nicenessOf [("otherjob", ⟨3, 7⟩)] "missing" = -1 :=
  C10_niceness_sentinel.1 [("otherjob", ⟨3, 7⟩)] "missing" (by decide)

/-- C5 counterexample: with one successful poll publishing
`jobname 999000 5` still pending and no poll completed when the query is
issued, `GetNiceness` returns `-1` immediately (it reads the current,
still-empty snapshot), while a query that blocked for the next poll — as
the claim says all three queries do — would read niceness `999000`. -/
theorem C5_counterexample :
    getNiceness [[("jobname", 999000, 5)]] 0 "jobname" = -1
    ∧ getNicenessSpecLike [[("jobname", 999000, 5)]] 0 "jobname" = 999000
    ∧ (-1 : Int) ≠ 999000 := by
  refine ⟨by decide, by decide, by decide⟩

/-- C5 amended: `HasUUID` and `All` block until the next successful poll
after the query and read exactly what that poll publishes; `GetNiceness`
does not block — its result depends only on the polls already completed
when it is called. -/
theorem C5_blocking_queries :
    (∀ (polls : List (List PollLine)) (k : Nat) (uuid : String)
        (hk : k < polls.length),
        (hasUUID polls k uuid = true ↔
          ∃ l ∈ polls.get ⟨k, hk⟩, l.1 = uuid ∧ uuid ≠ ""))
    ∧ (∀ (polls : List (List PollLine)) (k : Nat) (uuid : String)
        (hk : k < polls.length),
        (uuid ∈ allUUIDs polls k ↔
          ∃ l ∈ polls.get ⟨k, hk⟩, l.1 = uuid ∧ uuid ≠ ""))
    ∧ (∀ (polls polls' : List (List PollLine)) (k : Nat) (uuid : String),
        polls.take k = polls'.take k →
        getNiceness polls k uuid = getNiceness polls' k uuid) := by
  refine ⟨?_, ?_, ?_⟩
  · intro polls k uuid hk
    unfold hasUUID
    rw [snapshotAfter_succ polls k hk]
    exact lookupSnap_buildSnapshot_isSome _ _
  · intro polls k uuid hk
    unfold allUUIDs
    rw [snapshotAfter_succ polls k hk]
    rw [mem_mapFst_iff_lookup]
    exact lookupSnap_buildSnapshot_isSome _ _
  · intro polls polls' k uuid htake
    unfold getNiceness snapshotAfter
    by_cases hk0 : k = 0
    · rw [if_pos hk0, if_pos hk0]
    · rw [if_neg hk0, if_neg hk0]
      have hlt : k - 1 < k := Nat.sub_lt (Nat.pos_of_ne_zero hk0) Nat.one_pos
      have h1 : polls[k - 1]? = (polls.take k)[k - 1]? :=
        (List.getElem?_take_of_lt hlt).symm
      have h2 : polls'[k - 1]? = (polls'.take k)[k - 1]? :=
        (List.getElem?_take_of_lt hlt).symm
      rw [h1, h2, htake]

/-- C5 amended witness: concrete instances of the blocking and the
non-blocking conjuncts. -/
theorem C5_blocking_queries_witness :
    (hasUUID [[("jobname", 999000, 5)]] 0 "jobname" = true ↔
      ∃ l ∈ [("jobname", (999000 : Int), (5 : Int))], l.1 = "jobname" ∧ "jobname" ≠ "")
    ∧ getNiceness [[("a", 1, 1)], [("b", 2, 2)]] 1 "a" =
        getNiceness [[("a", 1, 1)], [("c", 3, 3)]] 1 "a" := by
  constructor
  · exact C5_blocking_queries.1 [[("jobname", 999000, 5)]] 0 "jobname" (by decide)
  · exact C5_blocking_queries.2.2 [[("a", 1, 1)], [("b", 2, 2)]] [[("a", 1, 1)], [("c", 3, 3)]] 1 "a" (by decide)

end Squeue

namespace CrunchRun

/-- The fields of the update dict assembled by
`ContainerRunner.UpdateContainerFinal` (crunch-run). `none` means the key
is absent from the update. -/
structure FinalUpdate where
  state : String
  log : Option String
  exit_code : Option Int
  output : Option String
deriving DecidableEq, Repr

/-- The runner-local state `UpdateContainerFinal` reads: the terminal state
decided by `Run`, and the optional PDHs/exit code accumulated so far. -/
structure FinalEnv where
  finalState : String
  logsPDH : Option String
  exitCode : Option Int
  outputPDH : Option String
deriving DecidableEq, Repr

/-- `ContainerRunner.UpdateContainerFinal`: `state` is always sent; `log`
is sent whenever `LogsPDH != nil`; `exit_code` and `output` are sent only
when the final state is `"Complete"` (and the values are present). -/
def updateContainerFinal (e : FinalEnv) : FinalUpdate :=
  { state := e.finalState
    log := e.logsPDH
    exit_code := if e.finalState = "Complete" then e.exitCode else none
    output := if e.finalState = "Complete" then e.outputPDH else none }

/-- C6 counterexample: a Cancelled report with a committed log collection
carries the log reference, so the log field is not "set only when the
reported terminal state is Complete". -/
theorem C6_counterexample :
    (updateContainerFinal
        ⟨"Cancelled", some "logpdh+123", some 0, some "outpdh+45"⟩).log = some "logpdh+123"
    ∧ (updateContainerFinal
        ⟨"Cancelled", some "logpdh+123", some 0, some "outpdh+45"⟩).state ≠ "Complete" := by
  refine ⟨rfl, by decide⟩

/-- C6 amended: in the final-state report the exit code and the output
reference are set only when the reported state is Complete, but the log
reference is set whenever a log collection was committed, regardless of
the reported terminal state. -/
theorem C6_final_fields :
    ∀ e : FinalEnv,
      (e.finalState ≠ "Complete" →
        (updateContainerFinal e).exit_code = none ∧ (updateContainerFinal e).output = none)
      ∧ (updateContainerFinal e).log = e.logsPDH
      ∧ (updateContainerFinal e).state = e.finalState := by
  intro e
  refine ⟨fun h => ?_, rfl, rfl⟩
  unfold updateContainerFinal
  rw [if_neg h, if_neg h]
  exact ⟨rfl, rfl⟩

/-- C6 amended witness: concrete non-Complete report. -/
theorem C6_final_fields_witness :
    (updateContainerFinal ⟨"Cancelled", none, some 7, some "o"⟩).exit_code = none
    ∧ (updateContainerFinal ⟨"Cancelled", none, some 7, some "o"⟩).output = none :=
  (C6_final_fields ⟨"Cancelled", none, some 7, some "o"⟩).1 (by decide)

end CrunchRun

namespace CrunchRun

/-- Outcomes of the external steps taken by `ContainerRunner.Run`, in
program order.  `loadImage`/`start` distinguish errors whose text matches
the broken-node `errorBlacklist` (so `checkBrokenNode` returns true) from
other errors; `none` means the step succeeded.  The three `cancelled*`
fields are the values of `IsCancelled()` at its three call sites (before
`UpdateContainerRunning`, after `WaitFinish`, and in the deferred
finalizer); `cCancelled` is monotone in the real runner, but no theorem
below relies on that. -/
structure RunEnv where
  fetchOk : Bool
  loadImage : Option Bool
  mountsOk : Bool
  createOk : Bool
  logHostOk : Bool
  logNodeOk : Bool
  logCtrOk : Bool
  cancelledBeforeStart : Bool
  updateRunningOk : Bool
  start : Option Bool
  waitOk : Bool
  cancelledAfterWait : Bool
  cancelledAtFinal : Bool
  captureOk : Bool
  hoststatOk : Bool
  commitLogsOk : Bool
deriving DecidableEq, Repr

/-- What the deferred finalizer of `Run` ends up doing. -/
structure RunOutcome where
  reportedState : String
  didCapture : Bool
  didCommitLogs : Bool
  didReport : Bool
deriving DecidableEq, Repr

/-- The main body of `ContainerRunner.Run` (between the deferred funcs and
the final `return`): yields the value of `runner.finalState` on exit and
whether a non-nil error is being returned.  `finalState` starts as
`"Queued"`; a `LoadImage` error sets it to `"Cancelled"` only when
`checkBrokenNode` does not recognise a broken-node pattern; a
`SetupMounts` error always sets `"Cancelled"`; it is set to `"Cancelled"`
unconditionally right before `StartContainer` and to `"Complete"` only
after a successful `WaitFinish` with no cancellation observed. -/
def runBody (e : RunEnv) : String × Bool :=
  if ¬e.fetchOk then ("Queued", true)
  else if e.loadImage = some true then ("Queued", true)
  else if e.loadImage = some false then ("Cancelled", true)
  else if ¬e.mountsOk then ("Cancelled", true)
  else if ¬e.createOk then ("Queued", true)
  else if ¬e.logHostOk then ("Queued", true)
  else if ¬e.logNodeOk then ("Queued", true)
  else if ¬e.logCtrOk then ("Queued", true)
  else if e.cancelledBeforeStart then ("Queued", false)
  else if ¬e.updateRunningOk then ("Queued", true)
  else if e.start.isSome then ("Cancelled", true)
  else if ¬e.waitOk then ("Cancelled", true)
  else if e.cancelledAfterWait then ("Cancelled", false)
  else ("Complete", false)

/-- The deferred finalizer of `Run`: `checkErr` demotes `"Complete"` to
`"Cancelled"` on any error; a body that ends with `finalState == "Queued"`
reports immediately and skips capture; otherwise the finalizer re-checks
`IsCancelled`, runs `CaptureOutput`, `stopHoststat`, `CommitLogs` (each
through `checkErr`) and then `UpdateContainerFinal`. -/
def runFinalize (e : RunEnv) (body : String × Bool) : RunOutcome :=
  let fs1 := if body.2 ∧ body.1 = "Complete" then "Cancelled" else body.1
  if fs1 = "Queued" then
    { reportedState := "Queued", didCapture := false, didCommitLogs := false, didReport := true }
  else
    let fs2 := if e.cancelledAtFinal then "Cancelled" else fs1
    let fs3 := if ¬e.captureOk ∧ fs2 = "Complete" then "Cancelled" else fs2
    let fs4 := if ¬e.hoststatOk ∧ fs3 = "Complete" then "Cancelled" else fs3
    let fs5 := if ¬e.commitLogsOk ∧ fs4 = "Complete" then "Cancelled" else fs4
    { reportedState := fs5, didCapture := true, didCommitLogs := true, didReport := true }

/-- `ContainerRunner.Run`, as the composition of its body and its deferred
finalizer. -/
def runModel (e : RunEnv) : RunOutcome :=
  runFinalize e (runBody e)

/-- All steps up to and including `StartContainer` succeeded and no
cancellation was observed before the container process started. -/
def processStarted (e : RunEnv) : Prop :=
  e.fetchOk = true ∧ e.loadImage = none ∧ e.mountsOk = true ∧ e.createOk = true
  ∧ e.logHostOk = true ∧ e.logNodeOk = true ∧ e.logCtrOk = true
  ∧ e.cancelledBeforeStart = false ∧ e.updateRunningOk = true ∧ e.start = none

instance (e : RunEnv) : Decidable (processStarted e) := by
  unfold processStarted
  infer_instance

end CrunchRun

namespace CrunchRun

/-- C4 counterexample: an image-load failure whose error text matches the
broken-node blacklist (e.g. "Cannot connect to the Docker daemon") is an
infrastructure error before the process starts, yet `Run` leaves
`finalState` as `"Queued"` — the reported final state is Queued, not
Cancelled (the container is left for requeueing, and no capture happens). -/
theorem C4_counterexample :
    runModel ⟨true, some true, true, true, true, true, true, false, true, none,
        true, false, false, true, true, true⟩ =
      ⟨"Queued", false, false, true⟩
    ∧ "Queued" ≠ "Cancelled" := by
  exact ⟨rfl, by decide⟩

/-- C4 amended: an image-load error not recognised as a broken-node
pattern, and any mount-setup error, force the reported final state to
Cancelled; an image-load error recognised as broken-node instead leaves
the report Queued.  After the sandboxed process has started, every
combination of wait outcome and observed cancellation still performs
output capture, log commit and the final-state report before `Run`
returns. -/
theorem C4_prestart_and_capture :
    (∀ e : RunEnv, e.fetchOk = true → e.loadImage = some false →
        (runModel e).reportedState = "Cancelled")
    ∧ (∀ e : RunEnv, e.fetchOk = true → e.loadImage = none → e.mountsOk = false →
        (runModel e).reportedState = "Cancelled")
    ∧ (∀ e : RunEnv, e.fetchOk = true → e.loadImage = some true →
        (runModel e).reportedState = "Queued" ∧ (runModel e).didCapture = false)
    ∧ (∀ e : RunEnv, processStarted e →
        (runModel e).didCapture = true ∧ (runModel e).didCommitLogs = true
        ∧ (runModel e).didReport = true
        ∧ (e.cancelledAtFinal = true → (runModel e).reportedState = "Cancelled")) := by
  refine ⟨?_, ?_, ?_, ?_⟩
  · rintro ⟨f, li, m, cr, lh, ln, lc, c1, ur, st, w, c2, c3, cap, hs, cl⟩ hf hli
    simp only at hf hli
    subst hf hli
    simp [runModel, runBody, runFinalize]
  · rintro ⟨f, li, m, cr, lh, ln, lc, c1, ur, st, w, c2, c3, cap, hs, cl⟩ hf hli hm
    simp only at hf hli hm
    subst hf hli hm
    simp [runModel, runBody, runFinalize]
  · rintro ⟨f, li, m, cr, lh, ln, lc, c1, ur, st, w, c2, c3, cap, hs, cl⟩ hf hli
    simp only at hf hli
    subst hf hli
    simp [runModel, runBody, runFinalize]
  · rintro ⟨f, li, m, cr, lh, ln, lc, c1, ur, st, w, c2, c3, cap, hs, cl⟩ hps
    obtain ⟨h1, h2, h3, h4, h5, h6, h7, h8, h9, h10⟩ := hps
    simp only at h1 h2 h3 h4 h5 h6 h7 h8 h9 h10
    subst h1 h2 h3 h4 h5 h6 h7 h8 h9 h10
    cases w <;> cases c2 <;> cases c3 <;> cases cap <;> cases hs <;> cases cl <;> decide

/-- C4 amended witness: concrete instances of each conjunct. -/
theorem C4_prestart_and_capture_witness :
    (runModel ⟨true, some false, true, true, true, true, true, false, true, none,
        true, false, false, true, true, true⟩).reportedState = "Cancelled"
    ∧ (runModel ⟨true, none, false, true, true, true, true, false, true, none,
        true, false, false, true, true, true⟩).reportedState = "Cancelled"
    ∧ (runModel ⟨true, none, true, true, true, true, true, false, true, none,
        false, false, true, false, true, true⟩).didCapture = true := by
  refine ⟨?_, ?_, ?_⟩
  · exact C4_prestart_and_capture.1 _ rfl rfl
  · exact C4_prestart_and_capture.2.1 _ rfl rfl rfl
  · exact (C4_prestart_and_capture.2.2.2 _ (by decide)).1

end CrunchRun

namespace CrunchRun

/-- File kinds distinguished by `os.FileInfo.Mode()` in the output walk. -/
inductive FMode
  | regular
  | dir
  | symlink
  | other
deriving DecidableEq, Repr

/-- The slice of the local filesystem the output walk consults:
`os.Lstat` (kind of an entry) and `os.Readlink`, plus the emptiness probe
`dir.Readdirnames(1)` used by `UploadOutputFile`'s directory branch.
`none` models the corresponding syscall failing. -/
structure FSModel where
  lstat : String → Option FMode
  readlink : String → Option String

/-- The fields of `arvados.Mount` used by the output walk. -/
structure MountM where
  writable : Bool
  pdh : String
deriving DecidableEq, Repr

/-- The runner configuration consulted by `derefOutputSymlink` and
`UploadOutputFile`: host output directory, in-container output path, and
the collection-kind mounts (bind path → mount), i.e. the `binds` list. -/
structure RunnerEnv where
  hostOutputDir : String
  outputPath : String
  mounts : List (String × MountM)

/-- `limitFollowSymlinks` from crunchrun.go. -/
def limitFollowSymlinks : Nat := 10

/-- `strings.HasPrefix s pre` (list-level so that concrete instances
compute inside the kernel). -/
def goHasPre (s pre : String) : Bool :=
  pre.data.isPrefixOf s.data

/-- `filepath.Dir`, restricted to cleaned paths: everything before the last
slash.  (Go additionally runs `filepath.Clean`; the model assumes paths
are already clean, which the theorems below do not depend on.) -/
def dirOf (p : String) : String :=
  ⟨(((p.data.reverse.dropWhile (· ≠ '/')).drop 1)).reverse⟩

/-- One iteration's target adjustment inside `derefOutputSymlink`: resolve
a relative link target against `filepath.Dir(path)` of the original
argument, then map an absolute target under the in-container output path
to the corresponding host path.  (`filepath.Join(a, b)` on cleaned paths
is `a ++ "/" ++ b`, and `filepath.Join(HostOutputDir, tgt[len(OutputPath):])`
is `HostOutputDir ++ tgt.drop len(OutputPath)` since the dropped suffix
keeps its leading slash.) -/
def adjustTgt (env : RunnerEnv) (origPath t0 : String) : String :=
  let t1 := if goHasPre t0 "/" then t0 else dirOf origPath ++ "/" ++ t0
  if goHasPre t1 (env.outputPath ++ "/") && !(goHasPre t1 (env.hostOutputDir ++ "/")) then
    env.hostOutputDir ++ t1.drop env.outputPath.length
  else t1

/-- Result of `derefOutputSymlink`, with the number of symlink hops that
were actually followed. -/
inductive DerefRes
  | ok (tgt readlinktgt : String) (info : FMode) (hops : Nat)
  | tooManyLinks
  | readlinkFailed (hops : Nat)
  | notInOutputDir (tgt readlinktgt : String) (hops : Nat)
  | lstatFailed (readlinktgt : String) (hops : Nat)
deriving DecidableEq, Repr

/-- The loop of `derefOutputSymlink`.  `fuel = limitFollowSymlinks - followed`;
the Go loop gives up when `followed >= limitFollowSymlinks` while `info`
is still a symlink. -/
def derefLoop (env : RunnerEnv) (fs : FSModel) (origPath : String) :
    Nat → String → String → String → FMode → DerefRes
  | 0, _, tgt, rlt, info =>
    if info ≠ FMode.symlink then .ok tgt rlt info limitFollowSymlinks
    else .tooManyLinks
  | fuel + 1, nextlink, tgt, rlt, info =>
    if info ≠ FMode.symlink then .ok tgt rlt info (limitFollowSymlinks - (fuel + 1))
    else
      match fs.readlink nextlink with
      | none => .readlinkFailed (limitFollowSymlinks - (fuel + 1))
      | some rl =>
        let t := adjustTgt env origPath rl
        if ¬(goHasPre t (env.hostOutputDir ++ "/") = true) then
          .notInOutputDir t rl (limitFollowSymlinks - fuel)
        else
          match fs.lstat t with
          | none => .lstatFailed rl (limitFollowSymlinks - fuel)
          | some i2 => derefLoop env fs origPath fuel t t rl i2

/-- `ContainerRunner.derefOutputSymlink`: follow symlinks from `path`
(initial `info` from the walk), requiring every intermediate target to
stay under the host output directory, with at most `limitFollowSymlinks`
hops. -/
def derefOutputSymlink (env : RunnerEnv) (fs : FSModel) (path : String) (startinfo : FMode) :
    DerefRes :=
  derefLoop env fs path limitFollowSymlinks path path "" startinfo

/-- Number of hops recorded in a `DerefRes`. -/
def derefHops : DerefRes → Nat
  | .ok _ _ _ h => h
  | .tooManyLinks => limitFollowSymlinks
  | .readlinkFailed h => h
  | .notInOutputDir _ _ h => h
  | .lstatFailed _ h => h

/-- `d41d8cd98f00b204e9800998ecf8427e+0`: the locator of the empty block. -/
def emptyBlockPDH : String := "d41d8cd98f00b204e9800998ecf8427e+0"

/-- Errors of `UploadOutputFile`. -/
inductive UpErr
  | infoErr
  | dirOpenErr
  | tooManyLinks
  | derefFailed
  | symlinkEscape (path readlinktgt : String)
deriving DecidableEq, Repr

/-- What one `UploadOutputFile` call contributes. -/
inductive UpRes
  | text (s : String)
  | upload (relocated tgt : String)
  | walkTarget (tgt relocated : String)
  | err (e : UpErr)
deriving DecidableEq, Repr

/-- The first-matching collection bind whose (non-writable) subtree
contains `tgt`: the `binds` loop of `UploadOutputFile`. -/
def findSpliceBind (env : RunnerEnv) (tgt : String) : Option (String × MountM) :=
  env.mounts.find? (fun bm => (tgt == bm.1 || goHasPre tgt (bm.1 ++ "/")) && !bm.2.writable)

/-- `ContainerRunner.UploadOutputFile` for a single walked entry.
`info = none` models a non-nil `infoerr`; `isEmptyDir` is the outcome of
the `Readdirnames(1)` probe for directories.  The actual byte upload and
the manifest splice for keep mounts are abstracted: `.upload` marks a
delegation to `walkUpload.UploadFile`, `spliceText` stands for
`getCollectionManifestForPath`, and `.walkTarget` marks the recursive walk
of a directory symlink target. -/
def uploadOutputFile (env : RunnerEnv) (fs : FSModel) (path : String) :
    Option FMode → Option Bool → String → String → Nat →
    (String → String → String) → UpRes
  | none, _, _, _, _, _ => .err .infoErr
  | some i, isEmptyDir, relocateFrom, relocateTo, followed, spliceText =>
    if i = FMode.dir then
      match isEmptyDir with
      | none => .err .dirOpenErr
      | some false => .text ""
      | some true =>
        if path = env.hostOutputDir then .text ""
        else
          let containerPath := env.outputPath ++ path.drop env.hostOutputDir.length
          if env.mounts.any (fun bm =>
              (containerPath == bm.1 || goHasPre containerPath (bm.1 ++ "/"))
              && bm.2.pdh != emptyBlockPDH) then
            .text ""
          else
            .text ("./" ++ path.drop (env.hostOutputDir.length + 1) ++ " "
              ++ emptyBlockPDH ++ " 0:0:.keep\n")
    else if limitFollowSymlinks ≤ followed then .err .tooManyLinks
    else
      let relocated := relocateTo ++ path.drop relocateFrom.length
      match derefOutputSymlink env fs path i with
      | .ok tgt _ i2 _ =>
        match findSpliceBind env tgt with
        | some bm => .text (spliceText bm.1 (relocated.drop env.hostOutputDir.length))
        | none =>
          if i2 = FMode.regular then .upload relocated tgt
          else if i2 = FMode.dir then .walkTarget tgt relocated
          else .text ""
      | .notInOutputDir tgt rl _ =>
        match findSpliceBind env tgt with
        | some bm => .text (spliceText bm.1 (relocated.drop env.hostOutputDir.length))
        | none => .err (.symlinkEscape (path.drop env.hostOutputDir.length) rl)
      | _ => .err .derefFailed

end CrunchRun

namespace CrunchRun

theorem derefLoop_hops_le (env : RunnerEnv) (fs : FSModel) (orig : String) :
    ∀ (fuel : Nat) (nl tgt rlt : String) (info : FMode),
      derefHops (derefLoop env fs orig fuel nl tgt rlt info) ≤ limitFollowSymlinks := by
  intro fuel
  induction fuel with
  | zero =>
    intro nl tgt rlt info
    unfold derefLoop
    by_cases hi : info ≠ FMode.symlink
    · rw [if_pos hi]
      exact Nat.le_refl _
    · rw [if_neg hi]
      exact Nat.le_refl _
  | succ fuel ih =>
    intro nl tgt rlt info
    unfold derefLoop
    by_cases hi : info ≠ FMode.symlink
    · rw [if_pos hi]
      exact Nat.sub_le _ _
    · rw [if_neg hi]
      cases hrl : fs.readlink nl with
      | none => exact Nat.sub_le _ _
      | some rl =>
        simp only
        by_cases hp : goHasPre (adjustTgt env orig rl) (env.hostOutputDir ++ "/") = true
        · rw [if_neg (by simp [hp])]
          cases hls : fs.lstat (adjustTgt env orig rl) with
          | none => exact Nat.sub_le _ _
          | some i2 => exact ih _ _ _ _
        · rw [if_pos (by simp [hp])]
          exact Nat.sub_le _ _

theorem derefLoop_ok_mem (env : RunnerEnv) (fs : FSModel) (orig : String) :
    ∀ (fuel : Nat) (nl tgt rlt : String) (info : FMode) (t r : String) (i2 : FMode) (h : Nat),
      derefLoop env fs orig fuel nl tgt rlt info = .ok t r i2 h →
      (t = tgt ∧ h = limitFollowSymlinks - fuel)
      ∨ (goHasPre t (env.hostOutputDir ++ "/") = true) := by
  intro fuel
  induction fuel with
  | zero =>
    intro nl tgt rlt info t r i2 h heq
    unfold derefLoop at heq
    by_cases hi : info ≠ FMode.symlink
    · rw [if_pos hi] at heq
      cases heq
      exact Or.inl ⟨rfl, rfl⟩
    · rw [if_neg hi] at heq
      cases heq
  | succ fuel ih =>
    intro nl tgt rlt info t r i2 h heq
    unfold derefLoop at heq
    by_cases hi : info ≠ FMode.symlink
    · rw [if_pos hi] at heq
      cases heq
      exact Or.inl ⟨rfl, rfl⟩
    · rw [if_neg hi] at heq
      cases hrl : fs.readlink nl with
      | none =>
        rw [hrl] at heq
        cases heq
      | some rl =>
        rw [hrl] at heq
        simp only at heq
        by_cases hp : goHasPre (adjustTgt env orig rl) (env.hostOutputDir ++ "/") = true
        · rw [if_neg (by simp [hp])] at heq
          cases hls : fs.lstat (adjustTgt env orig rl) with
          | none =>
            rw [hls] at heq
            cases heq
          | some j =>
            rw [hls] at heq
            rcases ih _ _ _ _ _ _ _ _ heq with ⟨rfl, _⟩ | hpre
            · exact Or.inr hp
            · exact Or.inr hpre
        · rw [if_pos (by simp [hp])] at heq
          cases heq

/-- C7: symlink resolution during output capture follows at most 10 hops
(`limitFollowSymlinks = 10`); any resolved target that actually followed a
link lies under the host output directory; and when resolution stops on a
target outside the output directory that is covered by no read-only
collection mount, `UploadOutputFile` fails with the symlink-escape error
instead of skipping the entry. -/
theorem C7_symlink_containment :
    limitFollowSymlinks = 10
    ∧ (∀ (env : RunnerEnv) (fs : FSModel) (p : String) (i : FMode),
        derefHops (derefOutputSymlink env fs p i) ≤ 10)
    ∧ (∀ (env : RunnerEnv) (fs : FSModel) (p : String) (i : FMode)
        (tgt rl : String) (i2 : FMode) (h : Nat),
        derefOutputSymlink env fs p i = .ok tgt rl i2 h → 1 ≤ h →
        goHasPre tgt (env.hostOutputDir ++ "/") = true)
    ∧ (∀ (env : RunnerEnv) (fs : FSModel) (path : String) (i : FMode)
        (isEmpty : Option Bool) (rf rt : String) (followed : Nat)
        (splice : String → String → String) (tgt rl : String) (h : Nat),
        i ≠ FMode.dir →
        followed < limitFollowSymlinks →
        derefOutputSymlink env fs path i = .notInOutputDir tgt rl h →
        findSpliceBind env tgt = none →
        uploadOutputFile env fs path (some i) isEmpty rf rt followed splice =
          .err (.symlinkEscape (path.drop env.hostOutputDir.length) rl)) := by
  refine ⟨rfl, ?_, ?_, ?_⟩
  · intro env fs p i
    exact derefLoop_hops_le env fs p limitFollowSymlinks p p "" i
  · intro env fs p i tgt rl i2 h heq hge
    rcases derefLoop_ok_mem env fs p limitFollowSymlinks p p "" i tgt rl i2 h heq with
      ⟨_, hh⟩ | hpre
    · rw [Nat.sub_self] at hh
      omega
    · exact hpre
  · intro env fs path i isEmpty rf rt followed splice tgt rl h hnd hfu hderef hsplice
    simp only [uploadOutputFile]
    rw [if_neg hnd, if_neg (Nat.not_le.mpr hfu)]
    simp only [hderef, hsplice]

/-- C7 witness: a symlink whose target `/etc/passwd` escapes the output
directory and matches no read-only collection mount makes the upload of
that entry a hard error. -/
theorem C7_symlink_containment_witness :
    uploadOutputFile ⟨"/host/out", "/out", []⟩
        ⟨fun _ => some FMode.symlink, fun _ => some "/etc/passwd"⟩
        "/host/out/link" (some FMode.symlink) none "" "" 0 (fun _ _ => "") =
      .err (.symlinkEscape "/link" "/etc/passwd") := by
  refine C7_symlink_containment.2.2.2 ⟨"/host/out", "/out", []⟩
      ⟨fun _ => some FMode.symlink, fun _ => some "/etc/passwd"⟩
      "/host/out/link" FMode.symlink none "" "" 0 (fun _ _ => "") "/etc/passwd" "/etc/passwd" 1
      (by decide) (by decide) (by decide) rfl

end CrunchRun

namespace Upload

/-- `keepclient.BLOCKSIZE` (64 MiB). -/
def BLOCKSIZE : Nat := 67108864

/-- A file visited by `WalkUpload.WalkFunc` within one manifest stream:
name and content bytes (byte values as `Nat`). -/
structure FileEnt where
  name : String
  data : List Nat
deriving Repr

/-- `CollectionFileWriter.ReadFrom` block splitting: stream content
accumulates into 64 MiB blocks, each flushed to the uploader when full;
the final partial (possibly empty) block is flushed by
`CollectionWriter.Finish` (the lazily allocated buffer is uploaded even
when it holds zero bytes). -/
def chunkBlocks (data : List Nat) : List (List Nat) :=
  if _h : data.length ≤ BLOCKSIZE then [data]
  else data.take BLOCKSIZE :: chunkBlocks (data.drop BLOCKSIZE)
termination_by data.length
decreasing_by
  simp only [List.length_drop]
  have hB : BLOCKSIZE = 67108864 := rfl
  omega

/-- Concatenated content of one stream: `WalkFunc` copies each file in
turn into the same `CollectionFileWriter`. -/
def streamData (files : List FileEnt) : List Nat :=
  (files.map (·.data)).join

/-- `CollectionFileWriter.NewFile`/`Close` bookkeeping: each file occupies
`offset:length:name`, where the offset is the sum of the lengths of the
files written before it into the stream (`m.offset += m.length` on
`NewFile`; `Close` appends the `FileStreamSegment`). -/
def segsOf (files : List FileEnt) : List (Nat × Nat × String) :=
  (files.foldl
    (fun acc f => (acc.1 + f.data.length, acc.2 ++ [(acc.1, f.data.length, f.name)]))
    ((0 : Nat), ([] : List (Nat × Nat × String)))).2

/-- The locator obtained from `PutHB(hash, block)`: md5 hex of the block
bytes plus the `+size` hint.  `md5hex` is a parameter: md5 itself is an
external primitive; every property proved here needs only that the
locator is a pure function of the bytes. -/
def locator (md5hex : List Nat → String) (block : List Nat) : String :=
  md5hex block ++ "+" ++ Nat.repr block.length

/-- The name escaping of `CollectionWriter.ManifestText`:
space → `\040`, newline removed. -/
def escapeChar (c : Char) : List Char :=
  if c = ' ' then ['\\', '0', '4', '0']
  else if c = '\n' then []
  else [c]

def escapeName (s : String) : String :=
  ⟨(s.data.map escapeChar).join⟩

/-- One line of `CollectionWriter.ManifestText` for a stream that received
at least one file write: stream name (`.` kept as-is, otherwise prefixed
with `./` and escaped), one ` locator` per block, one ` pos:len:name` per
file segment, and a terminating newline. -/
def streamLine (md5hex : List Nat → String) (streamName : String) (files : List FileEnt) : String :=
  let blocks := chunkBlocks (streamData files)
  let head := if streamName = "." then "." else "./" ++ escapeName streamName
  let blockPart := String.join (blocks.map (fun b => " " ++ locator md5hex b))
  let segPart := String.join ((segsOf files).map (fun sg =>
    " " ++ Nat.repr sg.1 ++ ":" ++ Nat.repr sg.2.1 ++ ":" ++ escapeName sg.2.2))
  head ++ blockPart ++ segPart ++ "\n"

end Upload

namespace Upload

/-- C8: an output directory with exactly one 3-byte plain file produces
the manifest line `. <md5-of-bytes>+3 0:3:file1.txt`, and an empty
subdirectory (other than the output root) covered by no declared mount
with a non-empty collection produces the zero-length placeholder entry
`./<dir> d41d8cd98f00b204e9800998ecf8427e+0 0:0:.keep`. -/
theorem C8_manifest_scenarioD :
    (∀ (md5hex : List Nat → String) (bytes : List Nat),
        bytes.length = 3 →
        streamLine md5hex "." [⟨"file1.txt", bytes⟩] =
          ". " ++ md5hex bytes ++ "+3 0:3:file1.txt\n")
    ∧ CrunchRun.emptyBlockPDH = "d41d8cd98f00b204e9800998ecf8427e+0"
    ∧ (∀ (env : CrunchRun.RunnerEnv) (fs : CrunchRun.FSModel) (path : String)
        (rf rt : String) (followed : Nat) (splice : String → String → String),
        path ≠ env.hostOutputDir →
        (env.mounts.any (fun bm =>
            ((env.outputPath ++ path.drop env.hostOutputDir.length) == bm.1
              || CrunchRun.goHasPre (env.outputPath ++ path.drop env.hostOutputDir.length) (bm.1 ++ "/"))
            && bm.2.pdh != CrunchRun.emptyBlockPDH)) = false →
        CrunchRun.uploadOutputFile env fs path (some CrunchRun.FMode.dir) (some true)
            rf rt followed splice =
          .text ("./" ++ path.drop (env.hostOutputDir.length + 1) ++ " "
            ++ CrunchRun.emptyBlockPDH ++ " 0:0:.keep\n")) := by
  refine ⟨?_, rfl, ?_⟩
  · intro md5hex bytes hlen
    have hdata : streamData [⟨"file1.txt", bytes⟩] = bytes := by
      simp [streamData]
    have hblocks : chunkBlocks bytes = [bytes] := by
      rw [chunkBlocks]
      rw [dif_pos (by rw [hlen]; decide)]
    have hsegs : segsOf [⟨"file1.txt", bytes⟩] = [(0, bytes.length, "file1.txt")] := rfl
    simp only [streamLine, hdata, hblocks, hsegs, locator, hlen,
      List.map_cons, List.map_nil, String.join, List.foldl]
    simp only [if_true]
    have he : escapeName "file1.txt" = "file1.txt" := by decide
    rw [he]
    have hr3 : Nat.repr 3 = "3" := rfl
    have hr0 : Nat.repr 0 = "0" := rfl
    rw [hr3, hr0]
    apply String.ext
    simp [String.data_append]
  · intro env fs path rf rt followed splice hne hbind
    simp only [CrunchRun.uploadOutputFile]
    simp only [if_true]
    rw [if_neg hne]
    rw [if_neg (by simp [hbind])]

/-- C8 witness: the 3-byte content `foo` with the md5 constant of the
repository's own `TestSimpleUpload`, and a concrete empty subdirectory. -/
theorem C8_manifest_scenarioD_witness :
    streamLine (fun _ => "acbd18db4cc2f85cedef654fccc4a4d8") "."
        [⟨"file1.txt", [102, 111, 111]⟩] =
      ". " ++ "acbd18db4cc2f85cedef654fccc4a4d8" ++ "+3 0:3:file1.txt\n"
    ∧ CrunchRun.uploadOutputFile ⟨"/host/out", "/out", []⟩
        ⟨fun _ => some CrunchRun.FMode.dir, fun _ => none⟩
        "/host/out/emptydir" (some CrunchRun.FMode.dir) (some true) "" "" 0 (fun _ _ => "") =
      .text ("./" ++ "emptydir" ++ " " ++ CrunchRun.emptyBlockPDH ++ " 0:0:.keep\n") := by
  constructor
  · exact C8_manifest_scenarioD.1 (fun _ => "acbd18db4cc2f85cedef654fccc4a4d8")
      [102, 111, 111] rfl
  · have h := C8_manifest_scenarioD.2.2 ⟨"/host/out", "/out", []⟩
      ⟨fun _ => some CrunchRun.FMode.dir, fun _ => none⟩
      "/host/out/emptydir" "" "" 0 (fun _ _ => "") (by decide) rfl
    rw [h]
    have hd : "/host/out/emptydir".drop ("/host/out".length + 1) = "emptydir" := by decide
    rw [hd]

end Upload

namespace LogThrottle

/-- Modelled from the spec: the crunch-run log rate limiter
(`ThrottledLogger`/`ArvLogWriter.rateLimit` in logging.go, which is not
part of the sources here; its tests are).  Per the spec, stdout/stderr
lines stream "through a rate-limited, timestamped logger", and "once a
cap is exceeded, emit one explanatory message and silently discard
further output from that stream for the remainder of the window".  Per
the repository's own logging tests, the rate limit governs the live API
log-event stream, while the Keep log collection committed by `CommitLogs`
retains every line.  The state covers a single rate-limit window. -/
structure ThrSt where
  keepLines : List String
  apiLines : List String
  bytesThisWindow : Nat
  limitExceeded : Bool
deriving DecidableEq, Repr

/-- The explanatory marker message, with the wording pinned by the
repository's `TestWriteLogsWithRateLimitThrottleBytes`. -/
def marker (cap : Nat) : String :=
  "Exceeded rate " ++ Nat.repr cap ++ " bytes per 60 seconds"

/-- Modelled from the spec: processing of one log line.  The Keep copy
receives the line unconditionally; the API stream receives it only while
the byte cap is not exceeded, and the first line that would exceed the
cap is replaced by a single marker message, after which the stream is
silent for the rest of the window. -/
def logLine (cap : Nat) (st : ThrSt) (line : String) : ThrSt :=
  let st1 := { st with keepLines := st.keepLines ++ [line] }
  if st1.limitExceeded then st1
  else if cap < st1.bytesThisWindow + line.length then
    { st1 with apiLines := st1.apiLines ++ [marker cap], limitExceeded := true }
  else
    { st1 with apiLines := st1.apiLines ++ [line],
               bytesThisWindow := st1.bytesThisWindow + line.length }

def logAll (cap : Nat) (st : ThrSt) (lines : List String) : ThrSt :=
  lines.foldl (logLine cap) st

def initSt : ThrSt := ⟨[], [], 0, false⟩

/-- The two timestamped lines of the repository's
`TestWriteLogsWithRateLimitThrottleBytes` (83 bytes in total with their
newlines, against a 50-byte cap). -/
def testLine1 : String := "2015-12-29T15:51:45.000000001Z Hello world!"

def testLine2 : String := "2015-12-29T15:51:45.000000002Z Goodbye"

end LogThrottle

namespace LogThrottle

/-- C9 counterexample: with the byte cap at 50 and the two test lines,
the committed log collection contains both lines and zero "exceeded
rate" markers, so it is false that the committed log contains exactly one
marker and no further lines from the stream — the marker goes to the API
event stream instead. -/
theorem C9_counterexample :
    (logAll 50 initSt [testLine1, testLine2]).keepLines = [testLine1, testLine2]
    ∧ ¬((logAll 50 initSt [testLine1, testLine2]).keepLines.count (marker 50) = 1
        ∧ testLine2 ∉ (logAll 50 initSt [testLine1, testLine2]).keepLines) := by
  constructor
  · decide
  · decide

/-- C9 amended: the rate-limited API event stream carries exactly one
"exceeded rate" marker once the cap is exceeded and nothing further from
that stream within the window, while the Keep-committed log collection
retains every line unthrottled.  Concretely, cap 50 with the two test
lines yields API stream `[line1, marker]` and Keep log `[line1, line2]`;
in general the stream emits nothing after the cap is exceeded, at most
one marker ever appears, and the Keep copy always receives all lines. -/
theorem C9_rate_limit :
    ((logAll 50 initSt [testLine1, testLine2]).apiLines = [testLine1, marker 50]
      ∧ (logAll 50 initSt [testLine1, testLine2]).keepLines = [testLine1, testLine2])
    ∧ (∀ (cap : Nat) (st : ThrSt) (lines : List String),
        st.limitExceeded = true → (logAll cap st lines).apiLines = st.apiLines)
    ∧ (∀ (cap : Nat) (st : ThrSt) (lines : List String),
        (logAll cap st lines).keepLines = st.keepLines ++ lines)
    ∧ (∀ (cap : Nat) (lines : List String),
        marker cap ∉ lines →
        (logAll cap initSt lines).apiLines.count (marker cap) ≤ 1) := by
  refine ⟨⟨by decide, by decide⟩, ?_, ?_, ?_⟩
  · intro cap st lines hex
    induction lines generalizing st with
    | nil => rfl
    | cons l rest ih =>
      unfold logAll at ih ⊢
      simp only [List.foldl_cons]
      have hstep : logLine cap st l =
          { st with keepLines := st.keepLines ++ [l] } := by
        unfold logLine
        rw [if_pos]
        exact hex
      rw [hstep]
      exact ih _ hex
  · intro cap st lines
    induction lines generalizing st with
    | nil => simp [logAll]
    | cons l rest ih =>
      unfold logAll at ih ⊢
      simp only [List.foldl_cons]
      have hkeep : ∀ st' : ThrSt, (logLine cap st' l).keepLines = st'.keepLines ++ [l] := by
        intro st'
        unfold logLine
        by_cases h1 : st'.limitExceeded = true
        · rw [if_pos h1]
        · rw [if_neg h1]
          by_cases h2 : cap < st'.bytesThisWindow + l.length
          · rw [if_pos h2]
          · rw [if_neg h2]
      have hrest := ih (logLine cap st l)
      rw [hrest, hkeep st]
      simp
  · intro cap lines hnm
    suffices h : ∀ (st : ThrSt) (lines : List String),
        (∀ l ∈ lines, l ≠ marker cap) →
        (st.limitExceeded = false → st.apiLines.count (marker cap) = 0 →
          (logAll cap st lines).apiLines.count (marker cap) ≤ 1)
        ∧ (st.limitExceeded = true → st.apiLines.count (marker cap) ≤ 1 →
          (logAll cap st lines).apiLines.count (marker cap) ≤ 1) by
      refine (h initSt lines ?_).1 rfl rfl
      intro l hl hlm
      exact hnm (hlm ▸ hl)
    intro st lines
    induction lines generalizing st with
    | nil =>
      intro _
      constructor
      · intro _ h0
        unfold logAll
        simp [h0]
      · intro _ h1
        exact h1
    | cons l rest ih =>
      intro hml
      have hmlr : ∀ x ∈ rest, x ≠ marker cap := fun x hx => hml x (List.mem_cons_of_mem _ hx)
      have hl : l ≠ marker cap := hml l (List.mem_cons_self l rest)
      constructor
      · intro hex h0
        unfold logAll
        simp only [List.foldl_cons]
        by_cases h2 : cap < st.bytesThisWindow + l.length
        · have hstep : logLine cap st l =
              { st with keepLines := st.keepLines ++ [l],
                        apiLines := st.apiLines ++ [marker cap], limitExceeded := true } := by
            unfold logLine
            rw [if_neg (by simp [hex]), if_pos h2]
          rw [hstep]
          refine (ih _ hmlr).2 rfl ?_
          simp [List.count_append, h0]
        · have hstep : logLine cap st l =
              { st with keepLines := st.keepLines ++ [l],
                        apiLines := st.apiLines ++ [l],
                        bytesThisWindow := st.bytesThisWindow + l.length } := by
            unfold logLine
            rw [if_neg (by simp [hex]), if_neg h2]
          rw [hstep]
          refine (ih _ hmlr).1 hex ?_
          simp only [List.count_append, h0]
          simp [List.count_singleton, hl]
      · intro hex h1
        unfold logAll
        simp only [List.foldl_cons]
        have hstep : logLine cap st l =
            { st with keepLines := st.keepLines ++ [l] } := by
          unfold logLine
          rw [if_pos]
          exact hex
        rw [hstep]
        exact (ih _ hmlr).2 hex h1

/-- C9 amended witness: concrete instances of the universally quantified
conjuncts. -/
theorem C9_rate_limit_witness :
    (logAll 50 ⟨[], [marker 50], 60, true⟩ [testLine2]).apiLines = [marker 50]
    ∧ (logAll 50 initSt [testLine1, testLine2]).keepLines = [] ++ [testLine1, testLine2]
    ∧ (logAll 50 initSt [testLine1, testLine2]).apiLines.count (marker 50) ≤ 1 := by
  refine ⟨?_, ?_, ?_⟩
  · exact C9_rate_limit.2.1 50 ⟨[], [marker 50], 60, true⟩ [testLine2] rfl
  · exact C9_rate_limit.2.2.1 50 initSt [testLine1, testLine2]
  · exact C9_rate_limit.2.2.2 50 [testLine1, testLine2] (by decide)

end LogThrottle

namespace PrioModel

/-- Modelled from the spec: the Work-Item Store data model (the Rails
models `container_request.rb`/`container.rb` are not among the sources;
their unit tests are).  Request states per the spec's data model. -/
inductive RState
  | Uncommitted
  | Committed
  | Final
deriving DecidableEq, Repr

/-- Work Item (container) states per the spec's data model. -/
inductive CState
  | Queued
  | Locked
  | Running
  | Complete
  | Cancelled
deriving DecidableEq, Repr

/-- Modelled from the spec: a Request (container request): state,
caller-assigned priority, the Work Item it resolves to (nullable until
committed), and the optional requesting Work Item for nested jobs. -/
structure Req where
  state : RState
  priority : Int
  containerUuid : Option String
  requestingContainerUuid : Option String
deriving DecidableEq, Repr

/-- Modelled from the spec: a Work Item (container) as the priority model
sees it: state and derived priority. -/
structure Ctr where
  state : CState
  priority : Int
deriving DecidableEq, Repr

/-- Modelled from the spec: the authoritative store of Requests and Work
Items, keyed by uuid. -/
structure Store where
  requests : List (String × Req)
  containers : List (String × Ctr)
deriving DecidableEq, Repr

/-- Association-list lookup (first binding wins). -/
def lookupA {α : Type} (l : List (String × α)) (k : String) : Option α :=
  (l.find? (fun kv => kv.1 == k)).map (·.2)

/-- Update every binding of a key in place. -/
def updA {α : Type} (l : List (String × α)) (k : String) (f : α → α) : List (String × α) :=
  l.map (fun kv => if kv.1 = k then (kv.1, f kv.2) else kv)

/-- The Committed Requests that reference Work Item `c`. -/
def committedFor (s : Store) (c : String) : List (String × Req) :=
  s.requests.filter (fun kv => kv.2.state == RState.Committed && kv.2.containerUuid == some c)

/-- The spec's priority formula:
`max({r.priority : r Committed, r.workItem = c} ∪ {0})`. -/
def derivedPriority (s : Store) (c : String) : Int :=
  (committedFor s c).foldl (fun m kv => max m kv.2.priority) 0

/-- Modelled from the spec: the synchronous per-write trigger — recompute
the referenced Work Item's priority from the current Requests. -/
def recompute (s : Store) (c : String) : Store :=
  { s with containers := updA s.containers c (fun ct => { ct with priority := derivedPriority s c }) }

def recomputeOpt (s : Store) (oc : Option String) : Store :=
  match oc with
  | some c => recompute s c
  | none => s

/-- Create the Work Item if it does not exist yet (initial state Queued). -/
def ensureCtr (l : List (String × Ctr)) (c : String) : List (String × Ctr) :=
  if (lookupA l c).isSome then l else (c, ⟨CState.Queued, 0⟩) :: l

/-- Modelled from the spec: the three Request-side operations of §4.1.
`commit` supplies the priority and attaches the Request to a (possibly
shared, possibly fresh) Work Item; `setPriority` edits a Committed
Request's priority; `cancelRequest` drops a Request's priority to 0.
Each operation re-triggers priority recomputation on the affected Work
Item. -/
inductive Op
  | commit (rid cuuid : String) (p : Int)
  | setPriority (rid : String) (p : Int)
  | cancelRequest (rid : String)

def applyOp (s : Store) (op : Op) : Store :=
  match op with
  | .commit rid cuuid p =>
    match lookupA s.requests rid with
    | none => s
    | some r =>
      if r.state = RState.Uncommitted then
        let s1 : Store :=
          { requests :=
              updA s.requests rid (fun r =>
                { r with state := RState.Committed, priority := p,
                         containerUuid := some cuuid }),
            containers := ensureCtr s.containers cuuid }
        recompute s1 cuuid
      else s
  | .setPriority rid p =>
    match lookupA s.requests rid with
    | none => s
    | some r =>
      if r.state = RState.Committed then
        let s1 : Store := { s with requests := updA s.requests rid (fun r => { r with priority := p }) }
        recomputeOpt s1 r.containerUuid
      else s
  | .cancelRequest rid =>
    match lookupA s.requests rid with
    | none => s
    | some r =>
      let s1 : Store := { s with requests := updA s.requests rid (fun r => { r with priority := 0 }) }
      recomputeOpt s1 r.containerUuid

def applyOps (s : Store) (ops : List Op) : Store :=
  ops.foldl applyOp s

/-- Whether some Committed Request with positive priority references Work
Item `c`: the SQL subquery `SELECT container_uuid FROM container_requests
WHERE priority>0 AND state='Committed'` of `UpdatePriority.update_priority`
(services/api, module UpdatePriority). -/
def hasPosCommitted (s : Store) (c : String) : Prop :=
  ∃ kv ∈ s.requests, kv.2.state = RState.Committed ∧ 0 < kv.2.priority
    ∧ kv.2.containerUuid = some c

instance (s : Store) (c : String) : Decidable (hasPosCommitted s c) := by
  unfold hasPosCommitted
  infer_instance

/-- Whether a Work Item state is one of the live (non-terminal) states:
the SQL `state IN ('Queued','Locked','Running')` of both statements, and
the states from which the priority-0 cancellation edge fires. -/
def activeState (st : CState) : Prop :=
  st = CState.Queued ∨ st = CState.Locked ∨ st = CState.Running

instance (st : CState) : Decidable (activeState st) := by
  unfold activeState
  infer_instance

/-- First statement of `UpdatePriority.update_priority` (the sweep, in
module UpdatePriority of the api models): `UPDATE containers SET
priority=0 WHERE state IN ('Queued','Locked','Running') AND priority>0
AND uuid NOT IN (<positive committed requests>)` — race class (a). -/
def sweepDropFun (s : Store) (kv : String × Ctr) : String × Ctr :=
  if activeState kv.2.state ∧ 0 < kv.2.priority ∧ ¬hasPosCommitted s kv.1 then
    (kv.1, { kv.2 with priority := 0 })
  else kv

def sweepDrop (s : Store) : Store :=
  { s with containers := s.containers.map (sweepDropFun s) }

/-- Second statement of `UpdatePriority.update_priority`: containers in a
live state with priority 0 that are joined to a positive-priority
Committed request get `update_priority!` — race class (b).  The effect of
`Container#update_priority!` (container.rb is not among the sources) is
taken from the spec's formula: priority becomes the derived maximum. -/
def sweepRaiseFun (s : Store) (kv : String × Ctr) : String × Ctr :=
  if activeState kv.2.state ∧ kv.2.priority = 0 ∧ hasPosCommitted s kv.1 then
    (kv.1, { kv.2 with priority := derivedPriority s kv.1 })
  else kv

def sweepRaise (s : Store) : Store :=
  { s with containers := s.containers.map (sweepRaiseFun s) }

/-- `UpdatePriority.update_priority`: the two repair statements run in
sequence (the second reads the state left by the first).  The advisory
`flock(LOCK_NB|LOCK_EX)` and the `File.owned?` guard make the whole pass a
no-op when the lock is not acquired; this models the pass that actually
runs (the `nolock` forced pass of the tests). -/
def updatePriority (s : Store) : Store :=
  sweepRaise (sweepDrop s)

/-- The spec's priority invariant, for every Work Item in the store. -/
def prioInvariant (s : Store) : Prop :=
  ∀ kv ∈ s.containers, kv.2.priority = derivedPriority s kv.1

instance (s : Store) : Decidable (prioInvariant s) := by
  unfold prioInvariant
  infer_instance

/-- Modelled from the spec: cancelling Work Item `w` (the cascade of
§4.1): force every Committed Request referencing `w` to Final with
priority 0; force priority 0 on every Request whose requesting Work Item
is `w`; then recompute each such child Request's own Work Item, cancelling
it if its priority has dropped to 0 (the Queued/Locked/Running →
Cancelled edge triggered by "priority drops to 0"). -/
def finalizeFun (w : String) (kv : String × Req) : String × Req :=
  if kv.2.state = RState.Committed ∧ kv.2.containerUuid = some w then
    (kv.1, { kv.2 with state := RState.Final, priority := 0 })
  else kv

def finalizeReqs (s : Store) (w : String) : Store :=
  { s with requests := s.requests.map (finalizeFun w) }

def zeroChildFun (w : String) (kv : String × Req) : String × Req :=
  if kv.2.requestingContainerUuid = some w then
    (kv.1, { kv.2 with priority := 0 })
  else kv

def zeroChildReqs (s : Store) (w : String) : Store :=
  { s with requests := s.requests.map (zeroChildFun w) }

def recomputeAndCancel (s : Store) (c : String) : Store :=
  { s with containers := updA s.containers c (fun ct =>
      { state := if derivedPriority s c = 0 ∧ activeState ct.state then CState.Cancelled
                 else ct.state,
        priority := derivedPriority s c }) }

/-- The Work Items referenced by the child Requests of `w`. -/
def childCtrs (s : Store) (w : String) : List String :=
  (s.requests.filter (fun kv => kv.2.requestingContainerUuid == some w)).filterMap
    (·.2.containerUuid)

def cancelContainer (s : Store) (w : String) : Store :=
  let s1 : Store := { s with containers := updA s.containers w (fun ct => { ct with state := CState.Cancelled }) }
  let s2 := finalizeReqs s1 w
  let s3 := zeroChildReqs s2 w
  (childCtrs s3 w).foldl recomputeAndCancel s3

end PrioModel

namespace PrioModel

/-- The Scenario B store: two yet-uncommitted Requests. -/
def sB0 : Store :=
  { requests := [("cr", ⟨RState.Uncommitted, 0, none, none⟩),
                 ("cr2", ⟨RState.Uncommitted, 0, none, none⟩)],
    containers := [] }

end PrioModel

namespace PrioModel

theorem foldl_recomputeAndCancel_requests (cs : List String) :
    ∀ s : Store, (cs.foldl recomputeAndCancel s).requests = s.requests := by
  induction cs with
  | nil => intro s; rfl
  | cons c rest ih =>
    intro s
    simp only [List.foldl_cons]
    rw [ih (recomputeAndCancel s c)]
    rfl

theorem derivedPriority_congr (s t : Store) (c : String)
    (h : s.requests = t.requests) : derivedPriority s c = derivedPriority t c := by
  unfold derivedPriority committedFor
  rw [h]

theorem fold_max_zero (l : List (String × Req))
    (h : ∀ kv ∈ l, kv.2.priority = 0) :
    l.foldl (fun m kv => max m kv.2.priority) 0 = 0 := by
  induction l with
  | nil => rfl
  | cons kv rest ih =>
    simp only [List.foldl_cons]
    rw [h kv (List.mem_cons_self kv rest), max_self]
    exact ih (fun x hx => h x (List.mem_cons_of_mem _ hx))

theorem req_update_priority_self (r : Req) (h : r.priority = 0) :
    { r with priority := 0 } = r := by
  rcases r with ⟨st, p, cu, rcu⟩
  simp only at h
  rw [h]

end PrioModel

namespace PrioModel

theorem recomputeAndCancel_requests (s : Store) (c : String) :
    (recomputeAndCancel s c).requests = s.requests := rfl

theorem zeroChildFun_state (w : String) (kv : String × Req) :
    (zeroChildFun w kv).2.state = kv.2.state := by
  unfold zeroChildFun
  by_cases h : kv.2.requestingContainerUuid = some w
  · rw [if_pos h]
  · rw [if_neg h]

theorem updA_mem_ne {α : Type} (l : List (String × α)) (w : String) (f : α → α) :
    ∀ kv ∈ updA l w f, kv.1 ≠ w → kv ∈ l := by
  intro kv hkv hne
  unfold updA at hkv
  rcases List.mem_map.mp hkv with ⟨kv0, hkv0, heq⟩
  by_cases h0 : kv0.1 = w
  · rw [if_pos h0] at heq
    rw [← heq] at hne
    exact absurd h0 hne
  · rw [if_neg h0] at heq
    rw [← heq]
    exact hkv0

theorem committedFor_child_zero (s1 : Store) (w x : String)
    (hall : ∀ kv ∈ s1.requests, kv.2.state = RState.Committed →
      kv.2.containerUuid = some x → kv.2.requestingContainerUuid = some w) :
    ∀ kv ∈ committedFor (zeroChildReqs (finalizeReqs s1 w) w) x, kv.2.priority = 0 := by
  intro kv hkv
  unfold committedFor at hkv
  rcases List.mem_filter.mp hkv with ⟨hmem, hcond⟩
  simp only [Bool.and_eq_true, beq_iff_eq] at hcond
  obtain ⟨hst, hcu⟩ := hcond
  unfold zeroChildReqs finalizeReqs at hmem
  simp only [List.mem_map] at hmem
  rcases hmem with ⟨kvf, ⟨kv0, hkv0, hf⟩, hz⟩
  by_cases hc1 : kv0.2.state = RState.Committed ∧ kv0.2.containerUuid = some w
  · -- finalized: the resulting state is Final, contradicting hst
    unfold finalizeFun at hf
    rw [if_pos hc1] at hf
    have : kv.2.state = RState.Final := by
      rw [← hz, zeroChildFun_state, ← hf]
    rw [hst] at this
    cases this
  · unfold finalizeFun at hf
    rw [if_neg hc1] at hf
    subst hf
    unfold zeroChildFun at hz
    by_cases hc2 : kv0.2.requestingContainerUuid = some w
    · rw [if_pos hc2] at hz
      rw [← hz]
    · rw [if_neg hc2] at hz
      subst hz
      exact absurd (hall kv0 hkv0 hst hcu) hc2

theorem child_mem (s1 : Store) (w x kr : String) (r : Req) (hxw : x ≠ w)
    (hmem : (kr, r) ∈ s1.requests) (hrcu : r.requestingContainerUuid = some w)
    (hcu : r.containerUuid = some x) :
    x ∈ childCtrs (zeroChildReqs (finalizeReqs s1 w) w) w := by
  have hf : finalizeFun w (kr, r) = (kr, r) := by
    unfold finalizeFun
    rw [if_neg]
    rintro ⟨_, hcw⟩
    simp only at hcw
    rw [hcu] at hcw
    exact hxw (Option.some.inj hcw)
  have hz : zeroChildFun w (kr, r) = (kr, { r with priority := 0 }) := by
    unfold zeroChildFun
    rw [if_pos hrcu]
  unfold childCtrs
  refine List.mem_filterMap.mpr ⟨(kr, { r with priority := 0 }), ?_, ?_⟩
  · refine List.mem_filter.mpr ⟨?_, ?_⟩
    · unfold zeroChildReqs finalizeReqs
      simp only [List.mem_map]
      exact ⟨(kr, r), ⟨(kr, r), hmem, hf⟩, hz⟩
    · simp only [beq_iff_eq]
      exact hrcu
  · simp only
    exact hcu

theorem step_preserves_inv (s3 : Store) (x : String) (hzero : derivedPriority s3 x = 0) :
    ∀ (s' : Store) (c : String),
      s'.requests = s3.requests →
      (∀ kv ∈ s'.containers, kv.1 = x →
        (activeState kv.2.state ∨ kv.2 = ⟨CState.Cancelled, 0⟩)) →
      (∀ kv ∈ (recomputeAndCancel s' c).containers, kv.1 = x →
        (activeState kv.2.state ∨ kv.2 = ⟨CState.Cancelled, 0⟩)) := by
  intro s' c hreq hinv kv hkv hkx
  unfold recomputeAndCancel updA at hkv
  rcases List.mem_map.mp hkv with ⟨kv0, hkv0, heq⟩
  by_cases hc : kv0.1 = c
  · rw [if_pos hc] at heq
    subst heq
    have hk0x : kv0.1 = x := hkx
    have hcx : c = x := hc ▸ hk0x
    have hder : derivedPriority s' c = 0 := by
      rw [hcx, derivedPriority_congr s' s3 x hreq]
      exact hzero
    rcases hinv kv0 hkv0 hk0x with hact | hdone
    · right
      simp only
      rw [hder]
      rw [if_pos ⟨rfl, hact⟩]
    · right
      simp only
      rw [hder]
      rw [if_neg]
      · rw [hdone]
      · rintro ⟨_, hja⟩
        rw [hdone] at hja
        exact absurd hja (by decide)
  · rw [if_neg hc] at heq
    subst heq
    exact hinv kv0 hkv0 hkx

theorem step_establishes (s3 : Store) (x : String) (hzero : derivedPriority s3 x = 0) :
    ∀ (s' : Store),
      s'.requests = s3.requests →
      (∀ kv ∈ s'.containers, kv.1 = x →
        (activeState kv.2.state ∨ kv.2 = ⟨CState.Cancelled, 0⟩)) →
      (∀ kv ∈ (recomputeAndCancel s' x).containers, kv.1 = x →
        kv.2 = ⟨CState.Cancelled, 0⟩) := by
  intro s' hreq hinv kv hkv hkx
  unfold recomputeAndCancel updA at hkv
  rcases List.mem_map.mp hkv with ⟨kv0, hkv0, heq⟩
  by_cases hc : kv0.1 = x
  · rw [if_pos hc] at heq
    subst heq
    have hder : derivedPriority s' x = 0 := by
      rw [derivedPriority_congr s' s3 x hreq]
      exact hzero
    rcases hinv kv0 hkv0 hc with hact | hdone
    · simp only
      rw [hder]
      rw [if_pos ⟨rfl, hact⟩]
    · simp only
      rw [hder]
      rw [if_neg]
      · rw [hdone]
      · rintro ⟨_, hja⟩
        rw [hdone] at hja
        exact absurd hja (by decide)
  · rw [if_neg hc] at heq
    subst heq
    exact absurd hkx hc

theorem step_preserves_done (s3 : Store) (x : String) (hzero : derivedPriority s3 x = 0) :
    ∀ (s' : Store) (c : String),
      s'.requests = s3.requests →
      (∀ kv ∈ s'.containers, kv.1 = x → kv.2 = ⟨CState.Cancelled, 0⟩) →
      (∀ kv ∈ (recomputeAndCancel s' c).containers, kv.1 = x →
        kv.2 = ⟨CState.Cancelled, 0⟩) := by
  intro s' c hreq hdone kv hkv hkx
  unfold recomputeAndCancel updA at hkv
  rcases List.mem_map.mp hkv with ⟨kv0, hkv0, heq⟩
  by_cases hc : kv0.1 = c
  · rw [if_pos hc] at heq
    subst heq
    have hk0x : kv0.1 = x := hkx
    have hcx : c = x := hc ▸ hk0x
    have hder : derivedPriority s' c = 0 := by
      rw [hcx, derivedPriority_congr s' s3 x hreq]
      exact hzero
    have hd := hdone kv0 hkv0 hk0x
    simp only
    rw [hder]
    rw [if_neg]
    · rw [hd]
    · rintro ⟨_, hja⟩
      rw [hd] at hja
      exact absurd hja (by decide)
  · rw [if_neg hc] at heq
    subst heq
    exact hdone kv0 hkv0 hkx

theorem fold_done (s3 : Store) (x : String) (hzero : derivedPriority s3 x = 0) :
    ∀ (cs : List String) (s' : Store),
      s'.requests = s3.requests →
      (∀ kv ∈ s'.containers, kv.1 = x → kv.2 = ⟨CState.Cancelled, 0⟩) →
      ∀ kv ∈ (cs.foldl recomputeAndCancel s').containers, kv.1 = x →
        kv.2 = ⟨CState.Cancelled, 0⟩ := by
  intro cs
  induction cs with
  | nil =>
    intro s' _ hdone
    exact hdone
  | cons c rest ih =>
    intro s' hreq hdone
    simp only [List.foldl_cons]
    exact ih (recomputeAndCancel s' c)
      (by rw [recomputeAndCancel_requests]; exact hreq)
      (step_preserves_done s3 x hzero s' c hreq hdone)

theorem fold_inv_done (s3 : Store) (x : String) (hzero : derivedPriority s3 x = 0) :
    ∀ (cs : List String) (s' : Store),
      x ∈ cs →
      s'.requests = s3.requests →
      (∀ kv ∈ s'.containers, kv.1 = x →
        (activeState kv.2.state ∨ kv.2 = ⟨CState.Cancelled, 0⟩)) →
      ∀ kv ∈ (cs.foldl recomputeAndCancel s').containers, kv.1 = x →
        kv.2 = ⟨CState.Cancelled, 0⟩ := by
  intro cs
  induction cs with
  | nil =>
    intro s' hx
    exact absurd hx (List.not_mem_nil x)
  | cons c rest ih =>
    intro s' hx hreq hinv
    simp only [List.foldl_cons]
    by_cases hcx : c = x
    · have hstep : ∀ kv ∈ (recomputeAndCancel s' c).containers, kv.1 = x →
          kv.2 = ⟨CState.Cancelled, 0⟩ := by
        rw [hcx]
        exact step_establishes s3 x hzero s' hreq hinv
      exact fold_done s3 x hzero rest (recomputeAndCancel s' c)
        (by rw [recomputeAndCancel_requests]; exact hreq) hstep
    · rcases List.mem_cons.mp hx with hxc | hxr
      · exact absurd hxc.symm hcx
      · exact ih (recomputeAndCancel s' c) hxr
          (by rw [recomputeAndCancel_requests]; exact hreq)
          (step_preserves_inv s3 x hzero s' c hreq hinv)

end PrioModel

namespace PrioModel

theorem finalizeReqs_requests (s : Store) (w : String) :
    (finalizeReqs s w).requests = s.requests.map (finalizeFun w) := rfl

theorem zeroChildReqs_requests (s : Store) (w : String) :
    (zeroChildReqs s w).requests = s.requests.map (zeroChildFun w) := rfl

theorem cancelContainer_def (s : Store) (w : String) :
    cancelContainer s w =
      (childCtrs (zeroChildReqs (finalizeReqs { s with containers := updA s.containers w (fun ct => { ct with state := CState.Cancelled }) } w) w) w).foldl
        recomputeAndCancel
        (zeroChildReqs (finalizeReqs { s with containers := updA s.containers w (fun ct => { ct with state := CState.Cancelled }) } w) w) := rfl

/-- C3: cancelling Work Item `w` (i) forces every previously-Committed
Request referencing `w` to Final with priority 0, (ii) forces priority 0
on every Request whose requesting Work Item is `w`, and (iii) for a child
Request of `w` resolving to Work Item `x ≠ w`, if every Committed Request
referencing `x` is such a child Request (so the priority formula has
nothing left) and `x` is in a non-terminal state, then `x`'s priority
drops to 0 and `x` is cancelled. -/
theorem C3_cancel_cascade :
    (∀ (s : Store) (w k : String) (r : Req),
        (k, r) ∈ s.requests → r.state = RState.Committed → r.containerUuid = some w →
        (k, { r with state := RState.Final, priority := 0 }) ∈ (cancelContainer s w).requests)
    ∧ (∀ (s : Store) (w : String) (kv : String × Req),
        kv ∈ (cancelContainer s w).requests →
        kv.2.requestingContainerUuid = some w → kv.2.priority = 0)
    ∧ (∀ (s : Store) (w x kr : String) (r : Req),
        x ≠ w →
        (kr, r) ∈ s.requests → r.requestingContainerUuid = some w →
        r.containerUuid = some x →
        (∀ kv ∈ s.requests, kv.2.state = RState.Committed → kv.2.containerUuid = some x →
          kv.2.requestingContainerUuid = some w) →
        (∀ kv ∈ s.containers, kv.1 = x → activeState kv.2.state) →
        ∀ kv ∈ (cancelContainer s w).containers, kv.1 = x →
          kv.2 = ⟨CState.Cancelled, 0⟩) := by
  refine ⟨?_, ?_, ?_⟩
  · intro s w k r hmem hst hcu
    rw [cancelContainer_def, foldl_recomputeAndCancel_requests,
        zeroChildReqs_requests, finalizeReqs_requests]
    simp only [List.mem_map]
    refine ⟨finalizeFun w (k, r), ⟨(k, r), hmem, rfl⟩, ?_⟩
    have hf : finalizeFun w (k, r) =
        (k, { r with state := RState.Final, priority := 0 }) := by
      unfold finalizeFun
      rw [if_pos]
      exact ⟨hst, hcu⟩
    rw [hf]
    unfold zeroChildFun
    by_cases hz : ((k, ({ r with state := RState.Final, priority := 0 } : Req)) :
        String × Req).2.requestingContainerUuid = some w
    · rw [if_pos hz]
    · rw [if_neg hz]
  · intro s w kv hmem hrcu
    rw [cancelContainer_def, foldl_recomputeAndCancel_requests,
        zeroChildReqs_requests] at hmem
    rcases List.mem_map.mp hmem with ⟨kv0, hkv0, heq⟩
    subst heq
    unfold zeroChildFun at hrcu ⊢
    by_cases hc : kv0.2.requestingContainerUuid = some w
    · rw [if_pos hc]
    · rw [if_neg hc] at hrcu
      exact absurd hrcu hc
  · intro s w x kr r hxw hmem hrcu hcu hall hact
    rw [cancelContainer_def]
    have hzero : derivedPriority
        (zeroChildReqs (finalizeReqs { s with containers := updA s.containers w (fun ct => { ct with state := CState.Cancelled }) } w) w) x = 0 := by
      unfold derivedPriority
      refine fold_max_zero _ ?_
      exact committedFor_child_zero
        { s with containers := updA s.containers w (fun ct => { ct with state := CState.Cancelled }) }
        w x hall
    have hx : x ∈ childCtrs
        (zeroChildReqs (finalizeReqs { s with containers := updA s.containers w (fun ct => { ct with state := CState.Cancelled }) } w) w) w :=
      child_mem _ w x kr r hxw hmem hrcu hcu
    have hinv : ∀ kv ∈ (zeroChildReqs (finalizeReqs { s with containers := updA s.containers w (fun ct => { ct with state := CState.Cancelled }) } w) w).containers,
        kv.1 = x → (activeState kv.2.state ∨ kv.2 = ⟨CState.Cancelled, 0⟩) := by
      intro kv hkv hkx
      left
      have hkv' : kv ∈ updA s.containers w (fun ct => { ct with state := CState.Cancelled }) := hkv
      have hin : kv ∈ s.containers :=
        updA_mem_ne s.containers w _ kv hkv' (by rw [hkx]; exact hxw)
      exact hact kv hin hkx
    exact fold_inv_done _ x hzero _ _ hx rfl hinv

/-- The scenario of the repository test "Container makes container
request, then is cancelled": `cr` (priority 5) resolves to `c`; `cr2`
(priority 10), requested from inside `c`, resolves to `c2`. -/
def sC3 : Store :=
  { requests := [("cr", ⟨RState.Committed, 5, some "c", none⟩),
                 ("cr2", ⟨RState.Committed, 10, some "c2", some "c"⟩)],
    containers := [("c", ⟨CState.Running, 5⟩), ("c2", ⟨CState.Queued, 10⟩)] }

/-- C3 witness: cancelling `c` finalises `cr` at priority 0, zeroes `cr2`,
and cancels `c2` at priority 0. -/
theorem C3_cancel_cascade_witness :
    ("cr", ({ state := RState.Final, priority := 0, containerUuid := some "c",
              requestingContainerUuid := none } : Req)) ∈ (cancelContainer sC3 "c").requests
    ∧ (("cr2", ({ state := RState.Committed, priority := 0, containerUuid := some "c2",
                  requestingContainerUuid := some "c" } : Req)) :
        String × Req).2.priority = 0
    ∧ (∀ kv ∈ (cancelContainer sC3 "c").containers, kv.1 = "c2" →
        kv.2 = ⟨CState.Cancelled, 0⟩) := by
  refine ⟨?_, ?_, ?_⟩
  · exact C3_cancel_cascade.1 sC3 "c" "cr" ⟨RState.Committed, 5, some "c", none⟩
      (by decide) rfl rfl
  · exact C3_cancel_cascade.2.1 sC3 "c"
      ("cr2", ⟨RState.Committed, 0, some "c2", some "c"⟩) (by decide) rfl
  · exact C3_cancel_cascade.2.2 sC3 "c" "c2" "cr2"
      ⟨RState.Committed, 10, some "c2", some "c"⟩
      (by decide) (by decide) rfl rfl (by decide) (by decide)

end PrioModel

namespace CasModel

open PrioModel (CState)

/-- Modelled from the spec: the mutual-exclusion view of one Work Item —
its state and the `locked-by` identity, which per the spec is "non-empty
iff state ∈ {Locked, Running}" and is the token acquired by an atomic
compare-and-set against the store. -/
structure WItem where
  state : CState
  lockedBy : Option String
deriving DecidableEq, Repr

/-- Modelled from the spec: the atomic operations of §4.1's state machine
that touch the lock: a claimant's compare-and-set lock attempt
(Queued→Locked), the claimant's unlock on failure before start
(Locked→Queued), a Runner's start report (Locked→Running, guard: must
hold the lock), and the terminal transitions. -/
inductive CasAct
  | lock (claimant : String)
  | unlock (claimant : String)
  | run (runner : String)
  | complete
  | cancel

/-- One atomic step against the store: returns the new Work Item plus
whether this step was a successful Queued→Locked transition and whether it
was a successful Locked→Running transition.  Each guard is evaluated
atomically against the current state (the compare-and-set). -/
def casStep (w : WItem) : CasAct → WItem × Bool × Bool
  | .lock c =>
    if w.state = CState.Queued then (⟨CState.Locked, some c⟩, true, false)
    else (w, false, false)
  | .unlock c =>
    if w.state = CState.Locked ∧ w.lockedBy = some c then (⟨CState.Queued, none⟩, false, false)
    else (w, false, false)
  | .run c =>
    if w.state = CState.Locked ∧ w.lockedBy = some c then (⟨CState.Running, some c⟩, false, true)
    else (w, false, false)
  | .complete =>
    if w.state = CState.Running then (⟨CState.Complete, none⟩, false, false)
    else (w, false, false)
  | .cancel =>
    if w.state = CState.Queued ∨ w.state = CState.Locked ∨ w.state = CState.Running then
      (⟨CState.Cancelled, none⟩, false, false)
    else (w, false, false)

/-- Number of successful Queued→Locked transitions along an interleaving. -/
def lockWins (w : WItem) : List CasAct → Nat
  | [] => 0
  | a :: rest =>
    (if (casStep w a).2.1 then 1 else 0) + lockWins (casStep w a).1 rest

/-- Number of successful Locked→Running transitions along an interleaving. -/
def runWins (w : WItem) : List CasAct → Nat
  | [] => 0
  | a :: rest =>
    (if (casStep w a).2.2 then 1 else 0) + runWins (casStep w a).1 rest

def isUnlock : CasAct → Prop
  | .unlock _ => True
  | _ => False

instance (a : CasAct) : Decidable (isUnlock a) := by
  cases a <;> (unfold isUnlock; infer_instance)

/-- States from which no Locked→Running transition can ever happen again. -/
def postRun (w : WItem) : Prop :=
  w.state = CState.Running ∨ w.state = CState.Complete ∨ w.state = CState.Cancelled

instance (w : WItem) : Decidable (postRun w) := by
  unfold postRun
  infer_instance

/-- States from which, absent an unlock, no Queued→Locked transition can
ever happen again. -/
def postLock (w : WItem) : Prop :=
  w.state ≠ CState.Queued

instance (w : WItem) : Decidable (postLock w) := by
  unfold postLock
  infer_instance

end CasModel

namespace CasModel

open PrioModel (CState)

theorem casStep_postRun (w : WItem) (a : CasAct) (h : postRun w) :
    postRun (casStep w a).1 ∧ (casStep w a).2.2 = false := by
  rcases h with h | h | h <;>
    cases a <;>
      simp [casStep, postRun, h]

theorem runWins_postRun (acts : List CasAct) :
    ∀ w : WItem, postRun w → runWins w acts = 0 := by
  induction acts with
  | nil => intro w _; rfl
  | cons a rest ih =>
    intro w h
    unfold runWins
    rcases casStep_postRun w a h with ⟨h1, h2⟩
    rw [h2]
    simp only [if_neg Bool.false_ne_true]
    rw [ih _ h1]

theorem casStep_run_token (w : WItem) (c : String)
    (h : (casStep w (.run c)).2.2 = true) :
    w.state = CState.Locked ∧ w.lockedBy = some c := by
  simp only [casStep] at h
  by_cases hc : w.state = CState.Locked ∧ w.lockedBy = some c
  · exact hc
  · rw [if_neg hc] at h
    cases h

theorem casStep_postLock (w : WItem) (a : CasAct) (hnu : ¬isUnlock a) (h : postLock w) :
    postLock (casStep w a).1 ∧ (casStep w a).2.1 = false := by
  cases a with
  | lock c =>
    constructor
    · simp only [casStep]
      rw [if_neg h]
      exact h
    · simp only [casStep]
      rw [if_neg h]
  | unlock c => exact absurd trivial hnu
  | run c =>
    by_cases hc : w.state = CState.Locked ∧ w.lockedBy = some c
    · constructor
      · simp only [casStep]
        rw [if_pos hc]
        intro hx
        cases hx
      · simp only [casStep]
        rw [if_pos hc]
    · constructor
      · simp only [casStep]
        rw [if_neg hc]
        exact h
      · simp only [casStep]
        rw [if_neg hc]
  | complete =>
    by_cases hc : w.state = CState.Running
    · constructor
      · simp only [casStep]
        rw [if_pos hc]
        intro hx
        cases hx
      · simp only [casStep]
        rw [if_pos hc]
    · constructor
      · simp only [casStep]
        rw [if_neg hc]
        exact h
      · simp only [casStep]
        rw [if_neg hc]
  | cancel =>
    by_cases hc : w.state = CState.Queued ∨ w.state = CState.Locked ∨ w.state = CState.Running
    · constructor
      · simp only [casStep]
        rw [if_pos hc]
        intro hx
        cases hx
      · simp only [casStep]
        rw [if_pos hc]
    · constructor
      · simp only [casStep]
        rw [if_neg hc]
        exact h
      · simp only [casStep]
        rw [if_neg hc]

theorem lockWins_postLock (acts : List CasAct) (hnu : ∀ a ∈ acts, ¬isUnlock a) :
    ∀ w : WItem, postLock w → lockWins w acts = 0 := by
  induction acts with
  | nil => intro w _; rfl
  | cons a rest ih =>
    intro w h
    unfold lockWins
    rcases casStep_postLock w a (hnu a (List.mem_cons_self a rest)) h with ⟨h1, h2⟩
    rw [h2]
    simp only [if_neg Bool.false_ne_true]
    rw [ih (fun x hx => hnu x (List.mem_cons_of_mem _ hx)) _ h1]

end CasModel

namespace CasModel

open PrioModel (CState)

theorem casStep_run_succ (w : WItem) (a : CasAct)
    (h : (casStep w a).2.2 = true) : postRun (casStep w a).1 := by
  cases a with
  | run c =>
    have hc := casStep_run_token w c h
    simp only [casStep]
    rw [if_pos hc]
    exact Or.inl rfl
  | lock c =>
    exfalso
    simp only [casStep] at h
    by_cases hq : w.state = CState.Queued
    · rw [if_pos hq] at h
      cases h
    · rw [if_neg hq] at h
      cases h
  | unlock c =>
    exfalso
    simp only [casStep] at h
    by_cases hq : w.state = CState.Locked ∧ w.lockedBy = some c
    · rw [if_pos hq] at h
      cases h
    · rw [if_neg hq] at h
      cases h
  | complete =>
    exfalso
    simp only [casStep] at h
    by_cases hq : w.state = CState.Running
    · rw [if_pos hq] at h
      cases h
    · rw [if_neg hq] at h
      cases h
  | cancel =>
    exfalso
    simp only [casStep] at h
    by_cases hq : w.state = CState.Queued ∨ w.state = CState.Locked ∨ w.state = CState.Running
    · rw [if_pos hq] at h
      cases h
    · rw [if_neg hq] at h
      cases h

theorem casStep_lock_succ (w : WItem) (a : CasAct)
    (h : (casStep w a).2.1 = true) : postLock (casStep w a).1 := by
  cases a with
  | lock c =>
    simp only [casStep] at h ⊢
    by_cases hq : w.state = CState.Queued
    · rw [if_pos hq]
      intro hx
      cases hx
    · rw [if_neg hq] at h
      cases h
  | unlock c =>
    exfalso
    simp only [casStep] at h
    by_cases hq : w.state = CState.Locked ∧ w.lockedBy = some c
    · rw [if_pos hq] at h
      cases h
    · rw [if_neg hq] at h
      cases h
  | run c =>
    exfalso
    simp only [casStep] at h
    by_cases hq : w.state = CState.Locked ∧ w.lockedBy = some c
    · rw [if_pos hq] at h
      cases h
    · rw [if_neg hq] at h
      cases h
  | complete =>
    exfalso
    simp only [casStep] at h
    by_cases hq : w.state = CState.Running
    · rw [if_pos hq] at h
      cases h
    · rw [if_neg hq] at h
      cases h
  | cancel =>
    exfalso
    simp only [casStep] at h
    by_cases hq : w.state = CState.Queued ∨ w.state = CState.Locked ∨ w.state = CState.Running
    · rw [if_pos hq] at h
      cases h
    · rw [if_neg hq] at h
      cases h

/-- C2 counterexample: with the spec's own Locked→Queued edge (a claimant
failing before start releases the lock), two different claimants each
succeed in transitioning the Work Item from Queued to Locked over its
history, so "at most one claimant ever succeeds in Queued→Locked" is
false as stated. -/
theorem C2_counterexample :
    lockWins ⟨PrioModel.CState.Queued, none⟩
        [.lock "A", .unlock "A", .lock "B"] = 2
    ∧ ¬(lockWins ⟨PrioModel.CState.Queued, none⟩
        [.lock "A", .unlock "A", .lock "B"] ≤ 1) := by
  exact ⟨by decide, by decide⟩

/-- C2 amended: over any interleaving of atomic compare-and-set steps,
(i) at most one Runner ever transitions the Work Item from Locked to
Running — regardless of the initial state and even across lock/unlock
cycles; (ii) as long as no claimant releases the lock (no Locked→Queued
edge occurs), at most one claimant ever succeeds in the Queued→Locked
compare-and-set; (iii) a Locked→Running transition succeeds only for the
runner named by the `locked-by` + state pair, which is therefore the sole
mutual-exclusion token. -/
theorem C2_mutual_exclusion :
    (∀ (w : WItem) (acts : List CasAct), runWins w acts ≤ 1)
    ∧ (∀ (w : WItem) (acts : List CasAct),
        w.state = CState.Queued → (∀ a ∈ acts, ¬isUnlock a) → lockWins w acts ≤ 1)
    ∧ (∀ (w : WItem) (c : String),
        (casStep w (.run c)).2.2 = true →
        w.state = CState.Locked ∧ w.lockedBy = some c) := by
  refine ⟨?_, ?_, ?_⟩
  · intro w acts
    induction acts generalizing w with
    | nil => exact Nat.zero_le 1
    | cons a rest ih =>
      unfold runWins
      by_cases hr : (casStep w a).2.2 = true
      · rw [if_pos hr]
        rw [runWins_postRun rest (casStep w a).1 (casStep_run_succ w a hr)]
      · rw [if_neg hr]
        simp only [Nat.zero_add]
        exact ih (casStep w a).1
  · intro w acts
    induction acts generalizing w with
    | nil =>
      intro _ _
      exact Nat.zero_le 1
    | cons a rest ih =>
      intro hq hnu
      unfold lockWins
      by_cases hl : (casStep w a).2.1 = true
      · rw [if_pos hl]
        rw [lockWins_postLock rest (fun x hx => hnu x (List.mem_cons_of_mem _ hx)) _
          (casStep_lock_succ w a hl)]
      · rw [if_neg hl]
        simp only [Nat.zero_add]
        by_cases hq2 : postLock (casStep w a).1
        · rw [lockWins_postLock rest (fun x hx => hnu x (List.mem_cons_of_mem _ hx)) _ hq2]
          exact Nat.zero_le 1
        · unfold postLock at hq2
          exact ih _ (not_not.mp hq2) (fun x hx => hnu x (List.mem_cons_of_mem _ hx))
  · exact fun w c h => casStep_run_token w c h

/-- C2 amended witness: a concrete race of two claimants without unlock
(only one lock succeeds), and the token property at a Locked item. -/
theorem C2_mutual_exclusion_witness :
    lockWins ⟨PrioModel.CState.Queued, none⟩
        [.lock "A", .lock "B", .run "A", .complete] ≤ 1
    ∧ ((⟨PrioModel.CState.Locked, some "A"⟩ : WItem).state = CState.Locked
        ∧ (⟨PrioModel.CState.Locked, some "A"⟩ : WItem).lockedBy = some "A") := by
  constructor
  · exact C2_mutual_exclusion.2.1 ⟨CState.Queued, none⟩
      [.lock "A", .lock "B", .run "A", .complete] rfl (by decide)
  · exact C2_mutual_exclusion.2.2 ⟨CState.Locked, some "A"⟩ "A" (by decide)

end CasModel

namespace PrioModel

theorem foldl_max_init_le (l : List (String × Req)) :
    ∀ z : Int, z ≤ l.foldl (fun m kv => max m kv.2.priority) z := by
  induction l with
  | nil => intro z; exact le_refl z
  | cons kv rest ih =>
    intro z
    simp only [List.foldl_cons]
    exact le_trans (le_max_left z kv.2.priority) (ih (max z kv.2.priority))

theorem foldl_max_mem_le (l : List (String × Req)) :
    ∀ (z : Int) (kv : String × Req), kv ∈ l →
      kv.2.priority ≤ l.foldl (fun m kv => max m kv.2.priority) z := by
  induction l with
  | nil => intro z kv h; cases h
  | cons a rest ih =>
    intro z kv h
    simp only [List.foldl_cons]
    rcases List.mem_cons.mp h with rfl | hmem
    · exact le_trans (le_max_right z kv.2.priority)
        (foldl_max_init_le rest (max z kv.2.priority))
    · exact ih (max z a.2.priority) kv hmem

theorem derivedPriority_nonneg (s : Store) (c : String) :
    0 ≤ derivedPriority s c :=
  foldl_max_init_le (committedFor s c) 0

theorem derivedPriority_pos_of_hasPos (s : Store) (c : String)
    (h : hasPosCommitted s c) : 0 < derivedPriority s c := by
  rcases h with ⟨kv, hmem, hst, hpos, hcu⟩
  have hin : kv ∈ committedFor s c := by
    unfold committedFor
    refine List.mem_filter.mpr ⟨hmem, ?_⟩
    simp only [Bool.and_eq_true, beq_iff_eq]
    exact ⟨hst, hcu⟩
  have hle := foldl_max_mem_le (committedFor s c) 0 kv hin
  exact lt_of_lt_of_le hpos hle

theorem updA_mem_cases {α : Type} (l : List (String × α)) (k : String) (f : α → α) :
    ∀ kv ∈ updA l k f, kv ∈ l ∨ ∃ v : α, kv = (k, f v) := by
  intro kv hkv
  unfold updA at hkv
  rcases List.mem_map.mp hkv with ⟨kv0, hkv0, heq⟩
  by_cases h0 : kv0.1 = k
  · rw [if_pos h0] at heq
    right
    refine ⟨kv0.2, ?_⟩
    rw [← heq, h0]
  · rw [if_neg h0] at heq
    left
    rw [← heq]
    exact hkv0

theorem ensureCtr_mem (l : List (String × Ctr)) (c : String) :
    ∀ kv ∈ ensureCtr l c, kv ∈ l ∨ kv = (c, ⟨CState.Queued, 0⟩) := by
  intro kv hkv
  unfold ensureCtr at hkv
  by_cases h : (lookupA l c).isSome = true
  · rw [if_pos h] at hkv
    exact Or.inl hkv
  · rw [if_neg h] at hkv
    rcases List.mem_cons.mp hkv with rfl | hm
    · exact Or.inr rfl
    · exact Or.inl hm

theorem applyOp_nonneg (s : Store) (op : Op)
    (h : ∀ kv ∈ s.containers, 0 ≤ kv.2.priority) :
    ∀ kv ∈ (applyOp s op).containers, 0 ≤ kv.2.priority := by
  cases op with
  | commit rid cuuid p =>
    simp only [applyOp]
    cases hl : lookupA s.requests rid with
    | none => exact h
    | some r =>
      dsimp only
      by_cases hu : r.state = RState.Uncommitted
      · rw [if_pos hu]
        intro kv hkv
        simp only [recompute] at hkv
        rcases updA_mem_cases _ cuuid _ kv hkv with hin | ⟨v, rfl⟩
        · rcases ensureCtr_mem s.containers cuuid kv hin with hin2 | rfl
          · exact h kv hin2
          · exact le_refl 0
        · exact derivedPriority_nonneg _ cuuid
      · rw [if_neg hu]
        exact h
  | setPriority rid p =>
    simp only [applyOp]
    cases hl : lookupA s.requests rid with
    | none => exact h
    | some r =>
      dsimp only
      by_cases hc : r.state = RState.Committed
      · rw [if_pos hc]
        cases hcu : r.containerUuid with
        | none => exact h
        | some c =>
          intro kv hkv
          simp only [recomputeOpt, recompute] at hkv
          rcases updA_mem_cases _ c _ kv hkv with hin | ⟨v, rfl⟩
          · exact h kv hin
          · exact derivedPriority_nonneg _ c
      · rw [if_neg hc]
        exact h
  | cancelRequest rid =>
    simp only [applyOp]
    cases hl : lookupA s.requests rid with
    | none => exact h
    | some r =>
      dsimp only
      cases hcu : r.containerUuid with
      | none => exact h
      | some c =>
        intro kv hkv
        simp only [recomputeOpt, recompute] at hkv
        rcases updA_mem_cases _ c _ kv hkv with hin | ⟨v, rfl⟩
        · exact h kv hin
        · exact derivedPriority_nonneg _ c

theorem applyOps_nonneg (ops : List Op) :
    ∀ s0 : Store, (∀ kv ∈ s0.containers, 0 ≤ kv.2.priority) →
      ∀ kv ∈ (applyOps s0 ops).containers, 0 ≤ kv.2.priority := by
  induction ops with
  | nil => intro s0 h; exact h
  | cons op rest ih =>
    intro s0 h
    exact ih (applyOp s0 op) (applyOp_nonneg s0 op h)

theorem updatePriority_live_iff (s : Store)
    (hnn : ∀ kv ∈ s.containers, 0 ≤ kv.2.priority) :
    ∀ kv ∈ (updatePriority s).containers, activeState kv.2.state →
      (0 < kv.2.priority ↔ hasPosCommitted s kv.1) := by
  intro kv hkv hlive
  have hkv2 : kv ∈ (s.containers.map (sweepDropFun s)).map
      (sweepRaiseFun (sweepDrop s)) := hkv
  rcases List.mem_map.mp hkv2 with ⟨kvd, hkvd, hraise⟩
  rcases List.mem_map.mp hkvd with ⟨kv0, hkv0, hdrop⟩
  have hnn0 := hnn kv0 hkv0
  by_cases hcd : activeState kv0.2.state ∧ 0 < kv0.2.priority
      ∧ ¬hasPosCommitted s kv0.1
  · have hdq : kvd = (kv0.1, { kv0.2 with priority := 0 }) := by
      rw [← hdrop]
      unfold sweepDropFun
      rw [if_pos hcd]
    subst hdq
    have hkq : kv = (kv0.1, { kv0.2 with priority := 0 }) := by
      rw [← hraise]
      unfold sweepRaiseFun
      rw [if_neg]
      rintro ⟨_, _, hp⟩
      exact hcd.2.2 hp
    rw [hkq]
    constructor
    · intro h0
      exact absurd h0 (lt_irrefl 0)
    · intro hp
      exact absurd hp hcd.2.2
  · have hdq : kvd = kv0 := by
      rw [← hdrop]
      unfold sweepDropFun
      rw [if_neg hcd]
    subst hdq
    by_cases hcr : activeState kvd.2.state ∧ kvd.2.priority = 0
        ∧ hasPosCommitted (sweepDrop s) kvd.1
    · have hkq : kv = (kvd.1,
          { kvd.2 with priority := derivedPriority (sweepDrop s) kvd.1 }) := by
        rw [← hraise]
        unfold sweepRaiseFun
        rw [if_pos hcr]
      rw [hkq]
      constructor
      · intro _
        exact hcr.2.2
      · intro _
        exact derivedPriority_pos_of_hasPos (sweepDrop s) kvd.1 hcr.2.2
    · have hkq : kv = kvd := by
        rw [← hraise]
        unfold sweepRaiseFun
        rw [if_neg hcr]
      subst hkq
      constructor
      · intro hpos
        by_contra hnp
        exact hcd ⟨hlive, hpos, hnp⟩
      · intro hp
        have hne : kv.2.priority ≠ 0 := by
          intro h0
          exact hcr ⟨hlive, h0, hp⟩
        omega

theorem updatePriority_raises (s : Store) (kv : String × Ctr)
    (hmem : kv ∈ s.containers) (hlive : activeState kv.2.state)
    (hp0 : kv.2.priority = 0) (hpos : hasPosCommitted s kv.1) :
    (kv.1, { kv.2 with priority := derivedPriority s kv.1 }) ∈
      (updatePriority s).containers := by
  have hdrop : sweepDropFun s kv = kv := by
    unfold sweepDropFun
    rw [if_neg]
    rintro ⟨_, hgt, _⟩
    rw [hp0] at hgt
    exact lt_irrefl 0 hgt
  have hraise : sweepRaiseFun (sweepDrop s) kv =
      (kv.1, { kv.2 with priority := derivedPriority (sweepDrop s) kv.1 }) := by
    unfold sweepRaiseFun
    rw [if_pos ⟨hlive, hp0, hpos⟩]
  show (kv.1, { kv.2 with priority := derivedPriority s kv.1 }) ∈
    (s.containers.map (sweepDropFun s)).map (sweepRaiseFun (sweepDrop s))
  refine List.mem_map.mpr ⟨kv, List.mem_map.mpr ⟨kv, hmem, hdrop⟩, ?_⟩
  exact hraise

/-- A store with a live Work Item whose positive priority 5 is stale
below the formula maximum 10 of its sole Committed Request. -/
def sCx : Store :=
  { requests := [("r", ⟨RState.Committed, 10, some "c", none⟩)],
    containers := [("c", ⟨CState.Running, 5⟩)] }

/-- C1 counterexample: after the (empty) operation sequence and a
reconciliation sweep, the live container `c` keeps its stale priority 5
although its only Committed Request has priority 10 — neither sweep
statement fires (it is not at a positive priority with no positive
Committed Request, nor at priority 0), so the claimed exact-maximum
invariant fails after the sweep. -/
theorem C1_counterexample :
    lookupA (updatePriority (applyOps sCx [])).containers "c" =
      some ⟨CState.Running, 5⟩
    ∧ derivedPriority (updatePriority (applyOps sCx [])) "c" = 10
    ∧ ¬prioInvariant (updatePriority (applyOps sCx [])) := by
  refine ⟨by decide, by decide, by decide⟩

/-- C1 amended: the `UpdatePriority.update_priority` sweep repairs
exactly the two race classes for Work Items in live states, rather than
restoring the exact maximum formula.  (1) Every operation sequence
preserves non-negativity of Work Item priorities; (2) on such stores,
after the sweep every live Work Item has positive priority iff some
positive-priority Committed Request references it (class (a): stale
positive priorities with no backing request are zeroed; stale zeros with
a backing request are raised); (3) class (b) pointwise: a live Work Item
at priority 0 with a positive Committed Request reappears after the sweep
at the derived maximum priority; (4)–(6) the exact maximum itself is
maintained by the per-operation synchronous recomputation: in Scenario B
the shared Work Item evaluates to priority 10 after the two commits at 5
and 10, to 5 after the priority-10 Request is zeroed, and to 0 after
both are zeroed. -/
theorem C1_sweep_repair :
    (∀ (ops : List Op) (s0 : Store),
        (∀ kv ∈ s0.containers, 0 ≤ kv.2.priority) →
        ∀ kv ∈ (applyOps s0 ops).containers, 0 ≤ kv.2.priority)
    ∧ (∀ s : Store,
        (∀ kv ∈ s.containers, 0 ≤ kv.2.priority) →
        ∀ kv ∈ (updatePriority s).containers, activeState kv.2.state →
          (0 < kv.2.priority ↔ hasPosCommitted s kv.1))
    ∧ (∀ (s : Store) (kv : String × Ctr),
        kv ∈ s.containers → activeState kv.2.state → kv.2.priority = 0 →
        hasPosCommitted s kv.1 →
        (kv.1, { kv.2 with priority := derivedPriority s kv.1 }) ∈
          (updatePriority s).containers)
    ∧ lookupA (applyOps sB0 [.commit "cr" "c" 5, .commit "cr2" "c" 10]).containers
        "c" = some ⟨CState.Queued, 10⟩
    ∧ lookupA (applyOps sB0 [.commit "cr" "c" 5, .commit "cr2" "c" 10,
        .setPriority "cr2" 0]).containers "c" = some ⟨CState.Queued, 5⟩
    ∧ lookupA (applyOps sB0 [.commit "cr" "c" 5, .commit "cr2" "c" 10,
        .setPriority "cr2" 0, .setPriority "cr" 0]).containers "c" =
        some ⟨CState.Queued, 0⟩ := by
  refine ⟨fun ops s0 h => applyOps_nonneg ops s0 h,
          updatePriority_live_iff, updatePriority_raises,
          by decide, by decide, by decide⟩

/-- A store with a class-(b) race: a live container stuck at priority 0
while a Committed priority-7 Request references it. -/
def sFix : Store :=
  { requests := [("r", ⟨RState.Committed, 7, some "c", none⟩)],
    containers := [("c", ⟨CState.Queued, 0⟩)] }

/-- C1 amended witness: non-negativity after a concrete commit on the
Scenario B store; the live-priority iff after the sweep on the class-(b)
store; and the raised entry at the derived maximum 7. -/
theorem C1_sweep_repair_witness :
    (∀ kv ∈ (applyOps sB0 [Op.commit "cr" "c" 5]).containers, 0 ≤ kv.2.priority)
    ∧ (∀ kv ∈ (updatePriority sFix).containers, activeState kv.2.state →
        (0 < kv.2.priority ↔ hasPosCommitted sFix kv.1))
    ∧ ("c", ({ (⟨CState.Queued, 0⟩ : Ctr) with
          priority := derivedPriority sFix "c" })) ∈
        (updatePriority sFix).containers := by
  refine ⟨?_, ?_, ?_⟩
  · exact C1_sweep_repair.1 [Op.commit "cr" "c" 5] sB0 (by decide)
  · exact C1_sweep_repair.2.1 sFix (by decide)
  · exact C1_sweep_repair.2.2.1 sFix ("c", ⟨CState.Queued, 0⟩)
      (by decide) (by decide) rfl (by decide)

end PrioModel
